import Mathlib

/-!
# Verification of the SPARStwo sparse roadmap spanner (ompl)

Shallow embedding of `src/ompl/geometric/planners/prm/SPARStwo.h`.

Configurations (`base::State*`) live in an explicit heap of allocated
states; `si->freeState`, `si->cloneState` and `si->distance` become
operations on that heap, so that memory claims (free-before-overwrite,
no double free) are expressible.  Fallible heap operations return
`Option`: `none` models a free or a dereference of an unallocated
pointer.  Doubles that only ever store, compare and subtract are
modelled as rationals; the `d_` field, which can hold
`std::numeric_limits<double>::infinity()`, is modelled by `EDist`.
-/

namespace SPARStwo

/-- A configuration value (the abstract contents of a `base::State`).
One dimension suffices for every claim; the distance function is a
parameter of the space information. -/
abbrev Config := Int

/-- The part of `base::SpaceInformation` the embedded code consumes:
the metric `distance` and the local-path feasibility check
`checkMotion`. -/
structure SpaceInformation where
  dist : Config → Config → ℚ
  checkMotion : Config → Config → Bool

/-- The heap of allocated states: an association list from state ids to
configuration values, plus the next fresh id. -/
structure Heap where
  mem : List (Nat × Config)
  next : Nat
deriving DecidableEq, Repr

/-- Value stored at id `p`, or `none` when `p` is not allocated. -/
def Heap.lookup (h : Heap) (p : Nat) : Option Config :=
  (h.mem.find? (fun e => e.1 == p)).map (·.2)

/-- `p` is an allocated state of `h`. -/
def Heap.Allocated (h : Heap) (p : Nat) : Prop :=
  (h.lookup p).isSome

instance (h : Heap) (p : Nat) : Decidable (h.Allocated p) := by
  unfold Heap.Allocated; infer_instance

/-- `si->freeState(p)`: deallocate `p`.  Freeing an unallocated id (a
double free or a wild pointer) is undefined behaviour, modelled as
`none`. -/
def Heap.freeState (h : Heap) (p : Nat) : Option Heap :=
  if h.Allocated p then
    some ⟨h.mem.filter (fun e => e.1 ≠ p), h.next⟩
  else
    none

/-- `si->cloneState(p)`: allocate a fresh state holding a copy of the
value at `p`.  Cloning an unallocated pointer is undefined behaviour,
modelled as `none`. -/
def Heap.cloneState (h : Heap) (p : Nat) : Option (Heap × Nat) :=
  (h.lookup p).map (fun v => (⟨(h.next, v) :: h.mem, h.next + 1⟩, h.next))

/-- `si->distance(a, b)` on two state pointers: defined only when both
are allocated. -/
def SpaceInformation.distance (si : SpaceInformation) (h : Heap) (a b : Nat) : Option ℚ :=
  match h.lookup a, h.lookup b with
  | some va, some vb => some (si.dist va vb)
  | _, _ => none

/-- Heap well-formedness: every allocated id is below the allocation
counter, so fresh ids never collide with live ones. -/
def Heap.WF (h : Heap) : Prop :=
  ∀ e ∈ h.mem, e.1 < h.next

/-- The empty heap. -/
def Heap.empty : Heap := ⟨[], 0⟩

/-! ## Basic heap lemmas -/

theorem Heap.lookup_freeState {h h' : Heap} {p : Nat}
    (hf : h.freeState p = some h') (q : Nat) :
    h'.lookup q = if q = p then none else h.lookup q := by
  unfold Heap.freeState at hf
  split at hf
  · cases hf
    unfold Heap.lookup
    by_cases hq : q = p
    · subst hq
      simp only [if_pos rfl]
      have : List.find? (fun e => e.1 == q) (h.mem.filter (fun e => e.1 ≠ q)) = none := by
        rw [List.find?_eq_none]
        intro e he
        rw [List.mem_filter] at he
        simp only [beq_iff_eq]
        simpa using he.2
      simp [this]
    · simp only [if_neg hq]
      congr 1
      induction h.mem with
      | nil => rfl
      | cons e es ih =>
        by_cases hep : e.1 = p
        · rw [List.filter_cons, if_neg (by simp [hep]),
             List.find?_cons_of_neg _ (by simp only [beq_iff_eq, hep]; exact fun hh => hq hh.symm)]
          exact ih
        · rw [List.filter_cons, if_pos (by simp [hep])]
          by_cases heq : e.1 = q
          · rw [List.find?_cons_of_pos _ (by simp [heq]),
               List.find?_cons_of_pos _ (by simp [heq])]
          · rw [List.find?_cons_of_neg _ (by simp [heq]),
               List.find?_cons_of_neg _ (by simp [heq])]
            exact ih
  · exact absurd hf (by simp)

theorem Heap.next_freeState {h h' : Heap} {p : Nat}
    (hf : h.freeState p = some h') : h'.next = h.next := by
  unfold Heap.freeState at hf
  split at hf
  · cases hf; rfl
  · exact absurd hf (by simp)

theorem Heap.freeState_isSome {h : Heap} {p : Nat} :
    (h.freeState p).isSome ↔ h.Allocated p := by
  unfold Heap.freeState
  split <;> simp_all

theorem Heap.lookup_cloneState {h h' : Heap} {p n : Nat}
    (hc : h.cloneState p = some (h', n)) (q : Nat) :
    h'.lookup q = if q = h.next then h.lookup p else h.lookup q := by
  unfold Heap.cloneState at hc
  rw [Option.map_eq_some'] at hc
  obtain ⟨v, hl, hv⟩ := hc
  cases hv
  unfold Heap.lookup
  by_cases hq : q = h.next
  · subst hq
    rw [if_pos rfl, List.find?_cons_of_pos _ (by simp)]
    unfold Heap.lookup at hl
    rw [hl]
    rfl
  · rw [if_neg hq, List.find?_cons_of_neg _
      (by simp only [beq_iff_eq]; exact fun hh => hq hh.symm)]

theorem Heap.cloneState_fresh {h h' : Heap} {p n : Nat}
    (hc : h.cloneState p = some (h', n)) : n = h.next ∧ h'.next = h.next + 1 := by
  unfold Heap.cloneState at hc
  rw [Option.map_eq_some'] at hc
  obtain ⟨v, hl, hv⟩ := hc
  cases hv
  exact ⟨rfl, rfl⟩

theorem Heap.cloneState_val {h h' : Heap} {p n : Nat}
    (hc : h.cloneState p = some (h', n)) :
    ∃ v, h.lookup p = some v ∧ h'.lookup n = some v := by
  unfold Heap.cloneState at hc
  rw [Option.map_eq_some'] at hc
  obtain ⟨v, hl, hv⟩ := hc
  cases hv
  refine ⟨v, hl, ?_⟩
  unfold Heap.lookup
  rw [List.find?_cons_of_pos _ (by simp)]
  rfl

theorem Heap.WF.freeState {h h' : Heap} {p : Nat}
    (hwf : h.WF) (hf : h.freeState p = some h') : h'.WF := by
  unfold Heap.freeState at hf
  split at hf
  · cases hf
    intro e he
    rw [List.mem_filter] at he
    exact hwf e he.1
  · exact absurd hf (by simp)

theorem Heap.WF.cloneState {h h' : Heap} {p n : Nat}
    (hwf : h.WF) (hc : h.cloneState p = some (h', n)) : h'.WF := by
  unfold Heap.cloneState at hc
  rw [Option.map_eq_some'] at hc
  obtain ⟨v, hl, hv⟩ := hc
  cases hv
  intro e he
  rcases List.mem_cons.mp he with h1 | h2
  · subst h1; exact Nat.lt_succ_self _
  · exact Nat.lt_succ_of_lt (hwf e h2)

theorem Heap.WF.lookup_lt {h : Heap} {p : Nat} {v : Config}
    (hwf : h.WF) (hl : h.lookup p = some v) : p < h.next := by
  unfold Heap.lookup at hl
  cases hf : h.mem.find? (fun e => e.1 == p) with
  | none => rw [hf] at hl; simp at hl
  | some e =>
    have he := List.mem_of_find?_eq_some hf
    have hep : e.1 = p := by
      have := List.find?_some hf
      simpa using this
    rw [← hep]
    exact hwf e he

theorem Heap.WF.lookup_next {h : Heap} (hwf : h.WF) : h.lookup h.next = none := by
  cases hl : h.lookup h.next with
  | none => rfl
  | some v => exact absurd (hwf.lookup_lt hl) (Nat.lt_irrefl _)

theorem Heap.WF.lookup_ge {h : Heap} (hwf : h.WF) {q : Nat} (hq : h.next ≤ q) :
    h.lookup q = none := by
  cases hl : h.lookup q with
  | none => rfl
  | some v => exact absurd (hwf.lookup_lt hl) (by omega)

theorem Heap.freeState_allocated {h h' : Heap} {p : Nat}
    (hf : h.freeState p = some h') : h.Allocated p := by
  by_contra hna
  unfold Heap.freeState at hf
  rw [if_neg hna] at hf
  exact absurd hf (by simp)

instance (h : Heap) : Decidable h.WF := by
  unfold Heap.WF; infer_instance

/-! ## The Interface Witness record (`SPARStwo::InterfaceData`)

`safeState` is a nullable state pointer: `Option Nat`.  `d_` is a
double that the constructor sets to
`std::numeric_limits<double>::infinity()`. -/

/-- `double` value of the `d_` field: either the floating infinity or a
finite value. -/
inductive EDist where
  | inf : EDist
  | fin : ℚ → EDist
deriving DecidableEq, Repr

/-- `SPARStwo::InterfaceData`: two pairs of nullable owned states and
the last known distance `d_`. -/
structure InterfaceData where
  points_ : Option Nat × Option Nat
  sigmas_ : Option Nat × Option Nat
  d_ : EDist
deriving DecidableEq, Repr

/-- The `InterfaceData` constructor: `d_ = infinity`, all pointers
default-constructed to `NULL`. -/
def InterfaceData.init : InterfaceData :=
  ⟨(none, none), (none, none), EDist.inf⟩

/-- The source pattern `if (x.get() != NULL) si->freeState(x.get())`. -/
def freeIfSet (h : Heap) (slot : Option Nat) : Option Heap :=
  match slot with
  | some id => h.freeState id
  | none => some h

/-- A record is valid in a heap when every non-null slot points at an
allocated state (the ownership invariant of live records). -/
def InterfaceData.validIn (iD : InterfaceData) (h : Heap) : Bool :=
  iD.points_.1.all (fun a => (h.lookup a).isSome) &&
  iD.points_.2.all (fun a => (h.lookup a).isSome) &&
  iD.sigmas_.1.all (fun a => (h.lookup a).isSome) &&
  iD.sigmas_.2.all (fun a => (h.lookup a).isSome)

theorem InterfaceData.validIn_spec {iD : InterfaceData} {h : Heap}
    (hv : iD.validIn h = true) :
    (∀ a, iD.points_.1 = some a → h.Allocated a) ∧
    (∀ a, iD.points_.2 = some a → h.Allocated a) ∧
    (∀ a, iD.sigmas_.1 = some a → h.Allocated a) ∧
    (∀ a, iD.sigmas_.2 = some a → h.Allocated a) := by
  unfold InterfaceData.validIn at hv
  simp only [Bool.and_eq_true] at hv
  obtain ⟨⟨⟨hv1, hv2⟩, hv3⟩, hv4⟩ := hv
  refine ⟨fun a ha => ?_, fun a ha => ?_, fun a ha => ?_, fun a ha => ?_⟩ <;>
    [rw [ha] at hv1; rw [ha] at hv2; rw [ha] at hv3; rw [ha] at hv4] <;>
    assumption

theorem freeIfSet_eq_some {h h1 : Heap} {slot : Option Nat}
    (hf : freeIfSet h slot = some h1) :
    h1.next = h.next ∧
    (∀ q, h1.lookup q = if slot = some q then none else h.lookup q) ∧
    (∀ a, slot = some a → h.Allocated a) := by
  cases slot with
  | none =>
    cases hf
    refine ⟨rfl, fun q => ?_, fun a ha => nomatch ha⟩
    rw [if_neg (by simp)]
  | some o =>
    refine ⟨Heap.next_freeState hf, fun q => ?_, fun a ha => ?_⟩
    · rw [Heap.lookup_freeState hf q]
      by_cases hq : q = o
      · subst hq; rw [if_pos rfl, if_pos rfl]
      · rw [if_neg hq, if_neg (by simp only [Option.some.injEq]; exact fun hh => hq hh.symm)]
    · cases ha
      exact Heap.freeState_allocated hf

/-- `InterfaceData::setFirst(p, s, si)`, lines 158–171 of the header:
free the old `points_.first` if non-null, store a clone of `p`, free
the old `sigmas_.first` if non-null, store a clone of `s`; then, if
`points_.second` is non-null, recompute `d_` as the distance between
the two close points. -/
def InterfaceData.setFirst (iD : InterfaceData) (p s : Nat) (si : SpaceInformation)
    (h : Heap) : Option (InterfaceData × Heap) :=
  (freeIfSet h iD.points_.1).bind (fun h1 =>
    (h1.cloneState p).bind (fun c1 =>
      (freeIfSet c1.1 iD.sigmas_.1).bind (fun h3 =>
        (h3.cloneState s).bind (fun c2 =>
          match iD.points_.2 with
          | some q =>
            (si.distance c2.1 c1.2 q).map (fun dv =>
              (⟨(some c1.2, iD.points_.2), (some c2.2, iD.sigmas_.2), EDist.fin dv⟩, c2.1))
          | none =>
            some (⟨(some c1.2, iD.points_.2), (some c2.2, iD.sigmas_.2), iD.d_⟩, c2.1)))))

/-- `InterfaceData::setSecond(p, s, si)`, lines 174–187 of the header:
the mirror image of `setFirst` acting on the second slot, recomputing
`d_` when `points_.first` is non-null. -/
def InterfaceData.setSecond (iD : InterfaceData) (p s : Nat) (si : SpaceInformation)
    (h : Heap) : Option (InterfaceData × Heap) :=
  (freeIfSet h iD.points_.2).bind (fun h1 =>
    (h1.cloneState p).bind (fun c1 =>
      (freeIfSet c1.1 iD.sigmas_.2).bind (fun h3 =>
        (h3.cloneState s).bind (fun c2 =>
          match iD.points_.1 with
          | some q =>
            (si.distance c2.1 q c1.2).map (fun dv =>
              (⟨(iD.points_.1, some c1.2), (iD.sigmas_.1, some c2.2), EDist.fin dv⟩, c2.1))
          | none =>
            some (⟨(iD.points_.1, some c1.2), (iD.sigmas_.1, some c2.2), iD.d_⟩, c2.1)))))

/-- `SPARStwo::clearSafeState`, lines 545–550: free the internal state
only when it is non-null, then set the pointer to `NULL`. -/
def clearSafeState (ss : Option Nat) (h : Heap) : Option (Option Nat × Heap) :=
  (freeIfSet h ss).map (fun h' => ((none : Option Nat), h'))

/-- `SPARStwo::clearInterfaceData`, lines 535–542: clear the four safe
states in order and reset `d_` to infinity. -/
def clearInterfaceData (iD : InterfaceData) (h : Heap) : Option (InterfaceData × Heap) :=
  (clearSafeState iD.points_.1 h).bind (fun r1 =>
    (clearSafeState iD.points_.2 r1.2).bind (fun r2 =>
      (clearSafeState iD.sigmas_.1 r2.2).bind (fun r3 =>
        (clearSafeState iD.sigmas_.2 r3.2).map (fun r4 =>
          (⟨(r1.1, r2.1), (r3.1, r4.1), EDist.inf⟩, r4.2)))))

/-- Records reachable from a freshly constructed `InterfaceData` by
successful `setFirst` / `setSecond` / `clearInterfaceData` calls. -/
inductive ReachID (si : SpaceInformation) : InterfaceData → Heap → Prop where
  | init (h : Heap) : ReachID si InterfaceData.init h
  | stepFirst {iD h iD' h'} (p s : Nat) : ReachID si iD h →
      iD.setFirst p s si h = some (iD', h') → ReachID si iD' h'
  | stepSecond {iD h iD' h'} (p s : Nat) : ReachID si iD h →
      iD.setSecond p s si h = some (iD', h') → ReachID si iD' h'
  | stepClear {iD h iD' h'} : ReachID si iD h →
      clearInterfaceData iD h = some (iD', h') → ReachID si iD' h'

/-- The `d_` bookkeeping invariant: `d_` is the metric distance between
the two close points when both are non-null, and infinity otherwise. -/
def dInvariant (si : SpaceInformation) (iD : InterfaceData) (h : Heap) : Prop :=
  (∀ a b, iD.points_.1 = some a → iD.points_.2 = some b →
    ∃ va vb, h.lookup a = some va ∧ h.lookup b = some vb ∧
      iD.d_ = EDist.fin (si.dist va vb)) ∧
  ((iD.points_.1 = none ∨ iD.points_.2 = none) → iD.d_ = EDist.inf)

theorem SpaceInformation.distance_eq_some {si : SpaceInformation} {h : Heap} {a b : Nat}
    {dv : ℚ} (hd : si.distance h a b = some dv) :
    ∃ va vb, h.lookup a = some va ∧ h.lookup b = some vb ∧ dv = si.dist va vb := by
  unfold SpaceInformation.distance at hd
  split at hd
  · cases hd
    rename_i va vb ha hb
    exact ⟨va, vb, ha, hb, rfl⟩
  · exact absurd hd (by simp)

/-- Anatomy of a successful `setFirst` call: the intermediate heaps, the
fresh clone ids, the untouched second slot, and the two possible `d_`
outcomes. -/
theorem InterfaceData.setFirst_eq_some {iD : InterfaceData} {p s : Nat}
    {si : SpaceInformation} {h : Heap} {iD' : InterfaceData} {h' : Heap}
    (hs : iD.setFirst p s si h = some (iD', h')) :
    ∃ h1 h2 pf h3 h4 sf,
      freeIfSet h iD.points_.1 = some h1 ∧
      h1.cloneState p = some (h2, pf) ∧
      freeIfSet h2 iD.sigmas_.1 = some h3 ∧
      h3.cloneState s = some (h4, sf) ∧
      h' = h4 ∧
      iD'.points_ = (some pf, iD.points_.2) ∧
      iD'.sigmas_ = (some sf, iD.sigmas_.2) ∧
      ((∃ q dv, iD.points_.2 = some q ∧ si.distance h4 pf q = some dv ∧
          iD'.d_ = EDist.fin dv) ∨
        (iD.points_.2 = none ∧ iD'.d_ = iD.d_)) := by
  unfold InterfaceData.setFirst at hs
  rw [Option.bind_eq_some] at hs
  obtain ⟨h1, hfree1, hs⟩ := hs
  rw [Option.bind_eq_some] at hs
  obtain ⟨c1, hclone1, hs⟩ := hs
  rw [Option.bind_eq_some] at hs
  obtain ⟨h3, hfree2, hs⟩ := hs
  rw [Option.bind_eq_some] at hs
  obtain ⟨c2, hclone2, hs⟩ := hs
  rcases hq : iD.points_.2 with _ | q
  · rw [hq] at hs
    dsimp only at hs
    simp only [Option.some.injEq, Prod.mk.injEq] at hs
    obtain ⟨hiD, hh⟩ := hs
    subst hiD; subst hh
    exact ⟨h1, c1.1, c1.2, h3, c2.1, c2.2, hfree1, hclone1, hfree2, hclone2, rfl, rfl, rfl,
      Or.inr ⟨rfl, rfl⟩⟩
  · rw [hq] at hs
    dsimp only at hs
    rw [Option.map_eq_some'] at hs
    obtain ⟨dv, hdv, heq⟩ := hs
    simp only [Prod.mk.injEq] at heq
    obtain ⟨hiD, hh⟩ := heq
    subst hiD; subst hh
    exact ⟨h1, c1.1, c1.2, h3, c2.1, c2.2, hfree1, hclone1, hfree2, hclone2, rfl, rfl, rfl,
      Or.inl ⟨q, dv, rfl, hdv, rfl⟩⟩

/-- Anatomy of a successful `setSecond` call, mirroring
`setFirst_eq_some`. -/
theorem InterfaceData.setSecond_eq_some {iD : InterfaceData} {p s : Nat}
    {si : SpaceInformation} {h : Heap} {iD' : InterfaceData} {h' : Heap}
    (hs : iD.setSecond p s si h = some (iD', h')) :
    ∃ h1 h2 ps2 h3 h4 ss2,
      freeIfSet h iD.points_.2 = some h1 ∧
      h1.cloneState p = some (h2, ps2) ∧
      freeIfSet h2 iD.sigmas_.2 = some h3 ∧
      h3.cloneState s = some (h4, ss2) ∧
      h' = h4 ∧
      iD'.points_ = (iD.points_.1, some ps2) ∧
      iD'.sigmas_ = (iD.sigmas_.1, some ss2) ∧
      ((∃ q dv, iD.points_.1 = some q ∧ si.distance h4 q ps2 = some dv ∧
          iD'.d_ = EDist.fin dv) ∨
        (iD.points_.1 = none ∧ iD'.d_ = iD.d_)) := by
  unfold InterfaceData.setSecond at hs
  rw [Option.bind_eq_some] at hs
  obtain ⟨h1, hfree1, hs⟩ := hs
  rw [Option.bind_eq_some] at hs
  obtain ⟨c1, hclone1, hs⟩ := hs
  rw [Option.bind_eq_some] at hs
  obtain ⟨h3, hfree2, hs⟩ := hs
  rw [Option.bind_eq_some] at hs
  obtain ⟨c2, hclone2, hs⟩ := hs
  rcases hq : iD.points_.1 with _ | q
  · rw [hq] at hs
    dsimp only at hs
    simp only [Option.some.injEq, Prod.mk.injEq] at hs
    obtain ⟨hiD, hh⟩ := hs
    subst hiD; subst hh
    exact ⟨h1, c1.1, c1.2, h3, c2.1, c2.2, hfree1, hclone1, hfree2, hclone2, rfl, rfl, rfl,
      Or.inr ⟨rfl, rfl⟩⟩
  · rw [hq] at hs
    dsimp only at hs
    rw [Option.map_eq_some'] at hs
    obtain ⟨dv, hdv, heq⟩ := hs
    simp only [Prod.mk.injEq] at heq
    obtain ⟨hiD, hh⟩ := heq
    subst hiD; subst hh
    exact ⟨h1, c1.1, c1.2, h3, c2.1, c2.2, hfree1, hclone1, hfree2, hclone2, rfl, rfl, rfl,
      Or.inl ⟨q, dv, rfl, hdv, rfl⟩⟩

/-- Anatomy of a successful `clearInterfaceData` call. -/
theorem clearInterfaceData_eq_some {iD : InterfaceData} {h : Heap}
    {iD' : InterfaceData} {h' : Heap}
    (hs : clearInterfaceData iD h = some (iD', h')) :
    iD' = InterfaceData.init ∧
    ∃ h1 h2 h3,
      clearSafeState iD.points_.1 h = some (none, h1) ∧
      clearSafeState iD.points_.2 h1 = some (none, h2) ∧
      clearSafeState iD.sigmas_.1 h2 = some (none, h3) ∧
      clearSafeState iD.sigmas_.2 h3 = some (none, h') := by
  have hnone : ∀ (ss : Option Nat) (hh : Heap) (r : Option Nat × Heap),
      clearSafeState ss hh = some r → r.1 = none := by
    intro ss hh r hr
    unfold clearSafeState at hr
    rw [Option.map_eq_some'] at hr
    obtain ⟨hx, _, hxx⟩ := hr
    rw [← hxx]
  unfold clearInterfaceData at hs
  rw [Option.bind_eq_some] at hs
  obtain ⟨r1, hc1, hs⟩ := hs
  rw [Option.bind_eq_some] at hs
  obtain ⟨r2, hc2, hs⟩ := hs
  rw [Option.bind_eq_some] at hs
  obtain ⟨r3, hc3, hs⟩ := hs
  rw [Option.map_eq_some'] at hs
  obtain ⟨r4, hc4, heq⟩ := hs
  obtain ⟨a1, b1⟩ := r1
  obtain ⟨a2, b2⟩ := r2
  obtain ⟨a3, b3⟩ := r3
  obtain ⟨a4, b4⟩ := r4
  have e1 := hnone _ _ _ hc1
  have e2 := hnone _ _ _ hc2
  have e3 := hnone _ _ _ hc3
  have e4 := hnone _ _ _ hc4
  simp only at e1 e2 e3 e4
  subst e1; subst e2; subst e3; subst e4
  simp only [Prod.mk.injEq] at heq
  obtain ⟨hiD, hh⟩ := heq
  subst hiD; subst hh
  exact ⟨rfl, b1, b2, b3, hc1, hc2, hc3, hc4⟩

/-- C1: every record reachable by `setFirst` / `setSecond` /
`clearInterfaceData` from a freshly constructed `InterfaceData` keeps
`d_` equal to the metric distance between its two close points when
both are non-null, and equal to infinity otherwise (in particular in
the fresh and in the cleared record). -/
theorem C1_interfaceData_d_invariant {si : SpaceInformation} {iD : InterfaceData}
    {h : Heap} (hr : ReachID si iD h) : dInvariant si iD h := by
  induction hr with
  | init h =>
    refine ⟨fun a b ha _ => absurd ha (by simp [InterfaceData.init]), fun _ => rfl⟩
  | stepFirst p s hr hs ih =>
    obtain ⟨h1, h2, pf, h3, h4, sf, _, _, _, _, hh, hpts, _, hd⟩ :=
      InterfaceData.setFirst_eq_some hs
    subst hh
    rcases hd with ⟨q, dv, hq, hdv, hd⟩ | ⟨hq, hd⟩
    · obtain ⟨va, vb, hva, hvb, hdv'⟩ := SpaceInformation.distance_eq_some hdv
      constructor
      · intro a b ha hb
        rw [hpts] at ha hb
        simp only at ha hb
        cases ha
        rw [hq] at hb
        cases hb
        exact ⟨va, vb, hva, hvb, by rw [hd, hdv']⟩
      · intro hcon
        rcases hcon with hc | hc <;> rw [hpts] at hc <;> simp only at hc
        · exact absurd hc (by simp)
        · rw [hq] at hc; exact absurd hc (by simp)
    · constructor
      · intro a b _ hb
        rw [hpts] at hb
        simp only at hb
        rw [hq] at hb
        exact absurd hb (by simp)
      · intro _
        rw [hd]
        exact ih.2 (Or.inr hq)
  | stepSecond p s hr hs ih =>
    obtain ⟨h1, h2, ps2, h3, h4, ss2, _, _, _, _, hh, hpts, _, hd⟩ :=
      InterfaceData.setSecond_eq_some hs
    subst hh
    rcases hd with ⟨q, dv, hq, hdv, hd⟩ | ⟨hq, hd⟩
    · obtain ⟨va, vb, hva, hvb, hdv'⟩ := SpaceInformation.distance_eq_some hdv
      constructor
      · intro a b ha hb
        rw [hpts] at ha hb
        simp only at ha hb
        cases hb
        rw [hq] at ha
        cases ha
        exact ⟨va, vb, hva, hvb, by rw [hd, hdv']⟩
      · intro hcon
        rcases hcon with hc | hc <;> rw [hpts] at hc <;> simp only at hc
        · rw [hq] at hc; exact absurd hc (by simp)
        · exact absurd hc (by simp)
    · constructor
      · intro a b ha _
        rw [hpts] at ha
        simp only at ha
        rw [hq] at ha
        exact absurd ha (by simp)
      · intro _
        rw [hd]
        exact ih.2 (Or.inl hq)
  | stepClear hr hs ih =>
    obtain ⟨hinit, _⟩ := clearInterfaceData_eq_some hs
    subst hinit
    exact ⟨fun a b ha _ => absurd ha (by simp [InterfaceData.init]), fun _ => rfl⟩

/-- A concrete space information for witnesses: one-dimensional integer
configurations with the absolute-difference metric and all motions
valid. -/
def si0 : SpaceInformation :=
  ⟨fun a b => ((a - b).natAbs : ℚ), fun _ _ => true⟩

/-- A concrete two-state heap for witnesses. -/
def h0 : Heap := ⟨[(0, 3), (1, 10)], 2⟩

/-- Witness for C1 at a concrete reachable record: after `setFirst`
then `setSecond` on a fresh record over `h0`, the invariant holds (the
record holds clones at ids 2 and 4 with `d_ = 7`). -/
theorem C1_interfaceData_d_invariant_witness :
    dInvariant si0 ⟨(some 2, some 4), (some 3, some 5), EDist.fin 7⟩
      ⟨[(5, 3), (4, 10), (3, 10), (2, 3), (0, 3), (1, 10)], 6⟩ := by
  have r0 : ReachID si0 InterfaceData.init h0 := ReachID.init h0
  have r1 : ReachID si0 ⟨(some 2, none), (some 3, none), EDist.inf⟩
      ⟨[(3, 10), (2, 3), (0, 3), (1, 10)], 4⟩ :=
    ReachID.stepFirst 0 1 r0 (by decide)
  have r2 : ReachID si0 ⟨(some 2, some 4), (some 3, some 5), EDist.fin 7⟩
      ⟨[(5, 3), (4, 10), (3, 10), (2, 3), (0, 3), (1, 10)], 6⟩ :=
    ReachID.stepSecond 1 0 r1 (by decide)
  exact C1_interfaceData_d_invariant r2

/-- Full functional description of a successful `setFirst` on a valid
record: fresh clones of `p` and `s` land in the first slot (at ids
`h.next` and `h.next + 1`), the prior occupants of the first slot are
gone from the heap, everything else is untouched, and `d_` is
recomputed exactly when the second close point is populated. -/
theorem InterfaceData.setFirst_spec {si : SpaceInformation} {iD : InterfaceData}
    {p s : Nat} {h : Heap} {iD' : InterfaceData} {h' : Heap}
    (hwf : h.WF) (hv : iD.validIn h = true) (hsA : h.Allocated s)
    (hs : iD.setFirst p s si h = some (iD', h')) :
    ∃ vp vs, h.lookup p = some vp ∧ h.lookup s = some vs ∧
      iD'.points_ = (some h.next, iD.points_.2) ∧
      iD'.sigmas_ = (some (h.next + 1), iD.sigmas_.2) ∧
      h'.lookup h.next = some vp ∧ h'.lookup (h.next + 1) = some vs ∧
      h.lookup h.next = none ∧ h.lookup (h.next + 1) = none ∧
      (∀ a, iD.points_.1 = some a → h'.lookup a = none) ∧
      (∀ a, iD.sigmas_.1 = some a → h'.lookup a = none) ∧
      (∀ q, q ≠ h.next → q ≠ h.next + 1 → iD.points_.1 ≠ some q →
        iD.sigmas_.1 ≠ some q → h'.lookup q = h.lookup q) ∧
      (∀ q, iD.points_.2 = some q →
        ∃ vq, h.lookup q = some vq ∧ iD'.d_ = EDist.fin (si.dist vp vq)) ∧
      (iD.points_.2 = none → iD'.d_ = iD.d_) := by
  obtain ⟨hv1, hv2, hv3, hv4⟩ := iD.validIn_spec hv
  obtain ⟨h1, h2, pf, h3, h4, sf, hfree1, hclone1, hfree2, hclone2, hh, hpts, hsig, hd⟩ :=
    InterfaceData.setFirst_eq_some hs
  subst hh
  obtain ⟨hn1, hl1, _⟩ := freeIfSet_eq_some hfree1
  obtain ⟨hpf, hn2⟩ := Heap.cloneState_fresh hclone1
  have hl2 := Heap.lookup_cloneState hclone1
  obtain ⟨hn3, hl3, _⟩ := freeIfSet_eq_some hfree2
  obtain ⟨hsf, hn4⟩ := Heap.cloneState_fresh hclone2
  have hl4 := Heap.lookup_cloneState hclone2
  rw [hn1] at hpf hl2 hn2
  rw [hn2] at hn3
  rw [hn3] at hsf hl4
  subst hpf; subst hsf
  obtain ⟨vp, hvp1, hvp2⟩ := Heap.cloneState_val hclone1
  obtain ⟨vs, hvs3, hvs4⟩ := Heap.cloneState_val hclone2
  have hP1p : iD.points_.1 ≠ some p := by
    intro hc
    have hx := hl1 p
    rw [if_pos hc] at hx
    rw [hx] at hvp1
    cases hvp1
  have hhp : h.lookup p = some vp := by
    have hx := hl1 p
    rw [if_neg hP1p] at hx
    rw [hx] at hvp1
    exact hvp1
  obtain ⟨vs0, hvs0⟩ := Option.isSome_iff_exists.mp hsA
  have hslt : s < h.next := hwf.lookup_lt hvs0
  have hS1s : iD.sigmas_.1 ≠ some s := by
    intro hc
    have hx := hl3 s
    rw [if_pos hc] at hx
    rw [hx] at hvs3
    cases hvs3
  have hx3 := hl3 s
  rw [if_neg hS1s] at hx3
  have hx2 := hl2 s
  rw [if_neg (Nat.ne_of_lt hslt)] at hx2
  have hP1s : iD.points_.1 ≠ some s := by
    intro hc
    have hx1 := hl1 s
    rw [if_pos hc] at hx1
    rw [hx3, hx2, hx1] at hvs3
    cases hvs3
  have hx1 := hl1 s
  rw [if_neg hP1s] at hx1
  have hhs : h.lookup s = some vs := by
    rw [hx3, hx2, hx1] at hvs3
    exact hvs3
  have hS1pf : iD.sigmas_.1 ≠ some h.next := by
    intro hc
    obtain ⟨v, hvv⟩ := Option.isSome_iff_exists.mp (hv3 _ hc)
    exact absurd (hwf.lookup_lt hvv) (by omega)
  have h'pf : h'.lookup h.next = some vp := by
    have hy4 := hl4 h.next
    rw [if_neg (by omega : h.next ≠ h.next + 1)] at hy4
    have hy3 := hl3 h.next
    rw [if_neg hS1pf] at hy3
    rw [hy4, hy3]
    exact hvp2
  have hfreedP : ∀ a, iD.points_.1 = some a → h'.lookup a = none := by
    intro a ha
    obtain ⟨v, hvv⟩ := Option.isSome_iff_exists.mp (hv1 _ ha)
    have halt : a < h.next := hwf.lookup_lt hvv
    have hz4 := hl4 a
    rw [if_neg (by omega : a ≠ h.next + 1)] at hz4
    rw [hz4]
    by_cases hS1a : iD.sigmas_.1 = some a
    · have hz3 := hl3 a
      rw [if_pos hS1a] at hz3
      exact hz3
    · have hz3 := hl3 a
      rw [if_neg hS1a] at hz3
      have hz2 := hl2 a
      rw [if_neg (by omega : a ≠ h.next)] at hz2
      have hz1 := hl1 a
      rw [if_pos ha] at hz1
      rw [hz3, hz2, hz1]
  have hfreedS : ∀ a, iD.sigmas_.1 = some a → h'.lookup a = none := by
    intro a ha
    obtain ⟨v, hvv⟩ := Option.isSome_iff_exists.mp (hv3 _ ha)
    have halt : a < h.next := hwf.lookup_lt hvv
    have hz4 := hl4 a
    rw [if_neg (by omega : a ≠ h.next + 1)] at hz4
    have hz3 := hl3 a
    rw [if_pos ha] at hz3
    rw [hz4, hz3]
  have hframe : ∀ q, q ≠ h.next → q ≠ h.next + 1 → iD.points_.1 ≠ some q →
      iD.sigmas_.1 ≠ some q → h'.lookup q = h.lookup q := by
    intro q hq1 hq2 hq3 hq4
    have hz4 := hl4 q
    rw [if_neg hq2] at hz4
    have hz3 := hl3 q
    rw [if_neg hq4] at hz3
    have hz2 := hl2 q
    rw [if_neg hq1] at hz2
    have hz1 := hl1 q
    rw [if_neg hq3] at hz1
    rw [hz4, hz3, hz2, hz1]
  have hdsome : ∀ q, iD.points_.2 = some q →
      ∃ vq, h.lookup q = some vq ∧ iD'.d_ = EDist.fin (si.dist vp vq) := by
    intro q hq
    rcases hd with ⟨q', dv, hq', hdv, hdval⟩ | ⟨hq', _⟩
    · rw [hq] at hq'
      cases hq'
      obtain ⟨va, vb, hva, hvb, hdv'⟩ := SpaceInformation.distance_eq_some hdv
      have hvavp : va = vp := by
        rw [h'pf] at hva
        cases hva
        rfl
      obtain ⟨v, hvv⟩ := Option.isSome_iff_exists.mp (hv2 _ hq)
      have hqlt : q < h.next := hwf.lookup_lt hvv
      have hqP1 : iD.points_.1 ≠ some q := by
        intro hc
        rw [hfreedP q hc] at hvb
        cases hvb
      have hqS1 : iD.sigmas_.1 ≠ some q := by
        intro hc
        rw [hfreedS q hc] at hvb
        cases hvb
      have hq4 := hframe q (by omega) (by omega) hqP1 hqS1
      rw [hq4] at hvb
      refine ⟨vb, hvb, ?_⟩
      rw [hdval, hdv', hvavp]
    · rw [hq] at hq'
      cases hq'
  have hdnone : iD.points_.2 = none → iD'.d_ = iD.d_ := by
    intro hq
    rcases hd with ⟨q', dv, hq', _, _⟩ | ⟨_, hdval⟩
    · rw [hq] at hq'
      cases hq'
    · exact hdval
  exact ⟨vp, vs, hhp, hhs, hpts, hsig, h'pf, hvs4,
    hwf.lookup_ge (Nat.le_refl _), hwf.lookup_ge (by omega),
    hfreedP, hfreedS, hframe, hdsome, hdnone⟩

/-- Full functional description of a successful `setSecond` on a valid
record, mirroring `setFirst_spec` on the second slot. -/
theorem InterfaceData.setSecond_spec {si : SpaceInformation} {iD : InterfaceData}
    {p s : Nat} {h : Heap} {iD' : InterfaceData} {h' : Heap}
    (hwf : h.WF) (hv : iD.validIn h = true) (hsA : h.Allocated s)
    (hs : iD.setSecond p s si h = some (iD', h')) :
    ∃ vp vs, h.lookup p = some vp ∧ h.lookup s = some vs ∧
      iD'.points_ = (iD.points_.1, some h.next) ∧
      iD'.sigmas_ = (iD.sigmas_.1, some (h.next + 1)) ∧
      h'.lookup h.next = some vp ∧ h'.lookup (h.next + 1) = some vs ∧
      h.lookup h.next = none ∧ h.lookup (h.next + 1) = none ∧
      (∀ a, iD.points_.2 = some a → h'.lookup a = none) ∧
      (∀ a, iD.sigmas_.2 = some a → h'.lookup a = none) ∧
      (∀ q, q ≠ h.next → q ≠ h.next + 1 → iD.points_.2 ≠ some q →
        iD.sigmas_.2 ≠ some q → h'.lookup q = h.lookup q) ∧
      (∀ q, iD.points_.1 = some q →
        ∃ vq, h.lookup q = some vq ∧ iD'.d_ = EDist.fin (si.dist vq vp)) ∧
      (iD.points_.1 = none → iD'.d_ = iD.d_) := by
  obtain ⟨hv1, hv2, hv3, hv4⟩ := iD.validIn_spec hv
  obtain ⟨h1, h2, pf, h3, h4, sf, hfree1, hclone1, hfree2, hclone2, hh, hpts, hsig, hd⟩ :=
    InterfaceData.setSecond_eq_some hs
  subst hh
  obtain ⟨hn1, hl1, _⟩ := freeIfSet_eq_some hfree1
  obtain ⟨hpf, hn2⟩ := Heap.cloneState_fresh hclone1
  have hl2 := Heap.lookup_cloneState hclone1
  obtain ⟨hn3, hl3, _⟩ := freeIfSet_eq_some hfree2
  obtain ⟨hsf, hn4⟩ := Heap.cloneState_fresh hclone2
  have hl4 := Heap.lookup_cloneState hclone2
  rw [hn1] at hpf hl2 hn2
  rw [hn2] at hn3
  rw [hn3] at hsf hl4
  subst hpf; subst hsf
  obtain ⟨vp, hvp1, hvp2⟩ := Heap.cloneState_val hclone1
  obtain ⟨vs, hvs3, hvs4⟩ := Heap.cloneState_val hclone2
  have hP2p : iD.points_.2 ≠ some p := by
    intro hc
    have hx := hl1 p
    rw [if_pos hc] at hx
    rw [hx] at hvp1
    cases hvp1
  have hhp : h.lookup p = some vp := by
    have hx := hl1 p
    rw [if_neg hP2p] at hx
    rw [hx] at hvp1
    exact hvp1
  obtain ⟨vs0, hvs0⟩ := Option.isSome_iff_exists.mp hsA
  have hslt : s < h.next := hwf.lookup_lt hvs0
  have hS2s : iD.sigmas_.2 ≠ some s := by
    intro hc
    have hx := hl3 s
    rw [if_pos hc] at hx
    rw [hx] at hvs3
    cases hvs3
  have hx3 := hl3 s
  rw [if_neg hS2s] at hx3
  have hx2 := hl2 s
  rw [if_neg (Nat.ne_of_lt hslt)] at hx2
  have hP2s : iD.points_.2 ≠ some s := by
    intro hc
    have hx1 := hl1 s
    rw [if_pos hc] at hx1
    rw [hx3, hx2, hx1] at hvs3
    cases hvs3
  have hx1 := hl1 s
  rw [if_neg hP2s] at hx1
  have hhs : h.lookup s = some vs := by
    rw [hx3, hx2, hx1] at hvs3
    exact hvs3
  have hS2pf : iD.sigmas_.2 ≠ some h.next := by
    intro hc
    obtain ⟨v, hvv⟩ := Option.isSome_iff_exists.mp (hv4 _ hc)
    exact absurd (hwf.lookup_lt hvv) (by omega)
  have h'pf : h'.lookup h.next = some vp := by
    have hy4 := hl4 h.next
    rw [if_neg (by omega : h.next ≠ h.next + 1)] at hy4
    have hy3 := hl3 h.next
    rw [if_neg hS2pf] at hy3
    rw [hy4, hy3]
    exact hvp2
  have hfreedP : ∀ a, iD.points_.2 = some a → h'.lookup a = none := by
    intro a ha
    obtain ⟨v, hvv⟩ := Option.isSome_iff_exists.mp (hv2 _ ha)
    have halt : a < h.next := hwf.lookup_lt hvv
    have hz4 := hl4 a
    rw [if_neg (by omega : a ≠ h.next + 1)] at hz4
    rw [hz4]
    by_cases hS2a : iD.sigmas_.2 = some a
    · have hz3 := hl3 a
      rw [if_pos hS2a] at hz3
      exact hz3
    · have hz3 := hl3 a
      rw [if_neg hS2a] at hz3
      have hz2 := hl2 a
      rw [if_neg (by omega : a ≠ h.next)] at hz2
      have hz1 := hl1 a
      rw [if_pos ha] at hz1
      rw [hz3, hz2, hz1]
  have hfreedS : ∀ a, iD.sigmas_.2 = some a → h'.lookup a = none := by
    intro a ha
    obtain ⟨v, hvv⟩ := Option.isSome_iff_exists.mp (hv4 _ ha)
    have halt : a < h.next := hwf.lookup_lt hvv
    have hz4 := hl4 a
    rw [if_neg (by omega : a ≠ h.next + 1)] at hz4
    have hz3 := hl3 a
    rw [if_pos ha] at hz3
    rw [hz4, hz3]
  have hframe : ∀ q, q ≠ h.next → q ≠ h.next + 1 → iD.points_.2 ≠ some q →
      iD.sigmas_.2 ≠ some q → h'.lookup q = h.lookup q := by
    intro q hq1 hq2 hq3 hq4
    have hz4 := hl4 q
    rw [if_neg hq2] at hz4
    have hz3 := hl3 q
    rw [if_neg hq4] at hz3
    have hz2 := hl2 q
    rw [if_neg hq1] at hz2
    have hz1 := hl1 q
    rw [if_neg hq3] at hz1
    rw [hz4, hz3, hz2, hz1]
  have hdsome : ∀ q, iD.points_.1 = some q →
      ∃ vq, h.lookup q = some vq ∧ iD'.d_ = EDist.fin (si.dist vq vp) := by
    intro q hq
    rcases hd with ⟨q', dv, hq', hdv, hdval⟩ | ⟨hq', _⟩
    · rw [hq] at hq'
      cases hq'
      obtain ⟨va, vb, hva, hvb, hdv'⟩ := SpaceInformation.distance_eq_some hdv
      have hvbvp : vb = vp := by
        rw [h'pf] at hvb
        cases hvb
        rfl
      obtain ⟨v, hvv⟩ := Option.isSome_iff_exists.mp (hv1 _ hq)
      have hqlt : q < h.next := hwf.lookup_lt hvv
      have hqP2 : iD.points_.2 ≠ some q := by
        intro hc
        rw [hfreedP q hc] at hva
        cases hva
      have hqS2 : iD.sigmas_.2 ≠ some q := by
        intro hc
        rw [hfreedS q hc] at hva
        cases hva
      have hq4 := hframe q (by omega) (by omega) hqP2 hqS2
      rw [hq4] at hva
      refine ⟨va, hva, ?_⟩
      rw [hdval, hdv', hvbvp]
    · rw [hq] at hq'
      cases hq'
  have hdnone : iD.points_.1 = none → iD'.d_ = iD.d_ := by
    intro hq
    rcases hd with ⟨q', dv, hq', _, _⟩ | ⟨_, hdval⟩
    · rw [hq] at hq'
      cases hq'
    · exact hdval
  exact ⟨vp, vs, hhp, hhs, hpts, hsig, h'pf, hvs4,
    hwf.lookup_ge (Nat.le_refl _), hwf.lookup_ge (by omega),
    hfreedP, hfreedS, hframe, hdsome, hdnone⟩

/-- C2: for every record and every successful `setFirst(p, s)` call
(symmetrically `setSecond`), the written slot ends up holding fresh
clones of `p` and `s`, the prior occupants of exactly that slot were
freed (when non-null), the opposite slot's two configurations are
untouched in record and heap, and `d_` is recomputed from the two close
points iff the opposite close point is already populated. -/
theorem C2_set_slot_functional_correctness :
    (∀ (si : SpaceInformation) (iD : InterfaceData) (p s : Nat) (h : Heap)
        (iD' : InterfaceData) (h' : Heap),
      h.WF → iD.validIn h = true → h.Allocated s →
      iD.setFirst p s si h = some (iD', h') →
      ∃ vp vs, h.lookup p = some vp ∧ h.lookup s = some vs ∧
        iD'.points_ = (some h.next, iD.points_.2) ∧
        iD'.sigmas_ = (some (h.next + 1), iD.sigmas_.2) ∧
        h'.lookup h.next = some vp ∧ h'.lookup (h.next + 1) = some vs ∧
        h.lookup h.next = none ∧ h.lookup (h.next + 1) = none ∧
        (∀ a, iD.points_.1 = some a → h'.lookup a = none) ∧
        (∀ a, iD.sigmas_.1 = some a → h'.lookup a = none) ∧
        (∀ q, q ≠ h.next → q ≠ h.next + 1 → iD.points_.1 ≠ some q →
          iD.sigmas_.1 ≠ some q → h'.lookup q = h.lookup q) ∧
        (∀ q, iD.points_.2 = some q →
          ∃ vq, h.lookup q = some vq ∧ iD'.d_ = EDist.fin (si.dist vp vq)) ∧
        (iD.points_.2 = none → iD'.d_ = iD.d_)) ∧
    (∀ (si : SpaceInformation) (iD : InterfaceData) (p s : Nat) (h : Heap)
        (iD' : InterfaceData) (h' : Heap),
      h.WF → iD.validIn h = true → h.Allocated s →
      iD.setSecond p s si h = some (iD', h') →
      ∃ vp vs, h.lookup p = some vp ∧ h.lookup s = some vs ∧
        iD'.points_ = (iD.points_.1, some h.next) ∧
        iD'.sigmas_ = (iD.sigmas_.1, some (h.next + 1)) ∧
        h'.lookup h.next = some vp ∧ h'.lookup (h.next + 1) = some vs ∧
        h.lookup h.next = none ∧ h.lookup (h.next + 1) = none ∧
        (∀ a, iD.points_.2 = some a → h'.lookup a = none) ∧
        (∀ a, iD.sigmas_.2 = some a → h'.lookup a = none) ∧
        (∀ q, q ≠ h.next → q ≠ h.next + 1 → iD.points_.2 ≠ some q →
          iD.sigmas_.2 ≠ some q → h'.lookup q = h.lookup q) ∧
        (∀ q, iD.points_.1 = some q →
          ∃ vq, h.lookup q = some vq ∧ iD'.d_ = EDist.fin (si.dist vq vp)) ∧
        (iD.points_.1 = none → iD'.d_ = iD.d_)) :=
  ⟨fun _ iD _ _ _ _ _ hwf hv hsA hs => iD.setFirst_spec hwf hv hsA hs,
   fun _ iD _ _ _ _ _ hwf hv hsA hs => iD.setSecond_spec hwf hv hsA hs⟩

/-- The record and heap produced by `setFirst 0 1` on a fresh record
over `h0` (used by the C2 witness). -/
def iD1 : InterfaceData := ⟨(some 2, none), (some 3, none), EDist.inf⟩

/-- The heap after the two clones of the C2 witness call. -/
def h1c : Heap := ⟨[(3, 10), (2, 3), (0, 3), (1, 10)], 4⟩

/-- Witness for C2 at a concrete call: `setFirst 0 1` on a fresh record
over `h0` clones values 3 and 10 into fresh ids 2 and 3 and leaves `d_`
untouched. -/
theorem C2_set_slot_functional_correctness_witness :
    h0.lookup 0 = some 3 ∧ h0.lookup 1 = some 10 ∧
    iD1.points_ = (some 2, none) ∧ iD1.sigmas_ = (some 3, none) ∧
    h1c.lookup 2 = some 3 ∧ h1c.lookup 3 = some 10 ∧
    h0.lookup 2 = none ∧ h0.lookup 3 = none ∧
    iD1.d_ = InterfaceData.init.d_ := by
  obtain ⟨vp, vs, hp, hs, hpts, hsig, hpf, hsf, hn1, hn2, _, _, _, _, hdn⟩ :=
    C2_set_slot_functional_correctness.1 si0 InterfaceData.init 0 1 h0 iD1 h1c
      (by decide) (by decide) (by decide) (by decide)
  have hvp : vp = 3 := Option.some.inj (hp.symm.trans (by decide))
  have hvs : vs = 10 := Option.some.inj (hs.symm.trans (by decide))
  subst hvp; subst hvs
  exact ⟨hp, hs, hpts, hsig, hpf, hsf, hn1, hn2, hdn rfl⟩

/-! ## The interface hash and its order-independent key

`SPARStwo::index` and `SPARStwo::getData` are declared at lines 401 and
404 of the header; their bodies are not part of this source tree, so
they are modelled from the specification. -/

/-- `VertexPair`: a pair of vertex identifiers used as hash key. -/
abbrev VertexPair := Nat × Nat

/-- `InterfaceHash`: the per-vertex map from neighbor pairs to
interface records. -/
abbrev InterfaceHash := List (VertexPair × InterfaceData)

/-- Modelled from the spec: the body of `SPARStwo::index` is missing
from src/ (declaration only, line 401).  §4.1: records are addressed by
an order-independent key derived from a pair of guard identifiers such
that `(a,b)` and `(b,a)` map to the same record, the lower identifier
ordered first. -/
def index (vp vpp : Nat) : VertexPair :=
  if vp < vpp then (vp, vpp) else (vpp, vp)

/-- Modelled from the spec: the body of `SPARStwo::getData`
(declaration only, line 404) retrieves the record stored under the
rectified key `index vp vpp`, a fresh record standing in before first
write (lazy creation). -/
def getData (hash : InterfaceHash) (vp vpp : Nat) : InterfaceData :=
  ((hash.find? (fun e => e.1 == index vp vpp)).map (·.2)).getD InterfaceData.init

/-- C7: `index` is order-independent — `(a,b)` and `(b,a)` produce the
same key, hence `getData` addresses the same record for either argument
order — while the slot order follows the numeric order of the two
identifiers: the lower-indexed vertex occupies the first component. -/
theorem C7_index_symmetric_ordered :
    (∀ a b : Nat, index a b = index b a) ∧
    (∀ (hash : InterfaceHash) (a b : Nat), getData hash a b = getData hash b a) ∧
    (∀ a b : Nat, a < b → index a b = (a, b)) := by
  have hsymm : ∀ a b : Nat, index a b = index b a := by
    intro a b
    unfold index
    rcases Nat.lt_trichotomy a b with hab | hab | hab
    · rw [if_pos hab, if_neg (by omega)]
    · subst hab; rfl
    · rw [if_neg (by omega), if_pos hab]
  refine ⟨hsymm, fun hash a b => ?_, fun a b hab => ?_⟩
  · unfold getData
    rw [hsymm a b]
  · unfold index
    rw [if_pos hab]

/-- Witness for C7 at concrete identifiers 1 and 2. -/
theorem C7_index_symmetric_ordered_witness :
    index 1 2 = index 2 1 ∧ index 1 2 = (1, 2) :=
  ⟨C7_index_symmetric_ordered.1 1 2, C7_index_symmetric_ordered.2.2 1 2 (by decide)⟩

/-! ## Tunable parameters (header lines 253–299)

The four setters assign the argument to the member; the four getters
return the member.  `maxFailures_` is an `unsigned int`; a negative
`int` argument at a call site undergoes the C++ integral conversion
modulo `2^32` before the setter ever sees it. -/

/-- The parameter members of `SPARStwo`. -/
structure Params where
  stretchFactor_ : ℚ
  sparseDelta_ : ℚ
  denseDelta_ : ℚ
  maxFailures_ : Nat
deriving DecidableEq, Repr

/-- `setStretchFactor(double t)`: plain assignment. -/
def setStretchFactor (P : Params) (t : ℚ) : Params := { P with stretchFactor_ := t }

/-- `setSparseDelta(double D)`: plain assignment. -/
def setSparseDelta (P : Params) (D : ℚ) : Params := { P with sparseDelta_ := D }

/-- `setDenseDelta(double d)`: plain assignment. -/
def setDenseDelta (P : Params) (d : ℚ) : Params := { P with denseDelta_ := d }

/-- `setMaxFailures(unsigned int m)`: plain assignment. -/
def setMaxFailures (P : Params) (m : Nat) : Params := { P with maxFailures_ := m }

/-- `getStretchFactor()`. -/
def getStretchFactor (P : Params) : ℚ := P.stretchFactor_

/-- `getSparseDelta()`. -/
def getSparseDelta (P : Params) : ℚ := P.sparseDelta_

/-- `getDenseDelta()`. -/
def getDenseDelta (P : Params) : ℚ := P.denseDelta_

/-- `getMaxFailures()`. -/
def getMaxFailures (P : Params) : Nat := P.maxFailures_

/-- The C++ implicit conversion applied to an `int` argument passed
where `unsigned int` is expected: reduction modulo `2^32`. -/
def toUInt32val (v : Int) : Nat := (v % (2 ^ 32 : Int)).toNat

/-! ## List helpers for vertex-indexed property maps -/

theorem getD_eq_of_lt {α : Type} {l : List α} {i : Nat} (h : i < l.length) (d d' : α) :
    l.getD i d = l.getD i d' := by
  induction l generalizing i with
  | nil => cases h
  | cons x xs ih =>
    cases i with
    | zero => rfl
    | succ j => exact ih (Nat.lt_of_succ_lt_succ h)

theorem getD_concat_lt {α : Type} {l : List α} {a d : α} {i : Nat} (h : i < l.length) :
    (l ++ [a]).getD i d = l.getD i d := by
  induction l generalizing i with
  | nil => cases h
  | cons x xs ih =>
    cases i with
    | zero => rfl
    | succ j => exact ih (Nat.lt_of_succ_lt_succ h)

theorem getD_concat_len {α : Type} {l : List α} {a d : α} :
    (l ++ [a]).getD l.length d = a := by
  induction l with
  | nil => rfl
  | cons x xs ih => exact ih

theorem getD_map {f : Nat → Nat} {l : List Nat} {i d : Nat} (h : i < l.length) :
    (l.map f).getD i d = f (l.getD i 0) := by
  induction l generalizing i with
  | nil => cases h
  | cons x xs ih =>
    cases i with
    | zero => rfl
    | succ j => exact ih (Nat.lt_of_succ_lt_succ h)

theorem getD_mem {α : Type} {l : List α} {i : Nat} (h : i < l.length) (d : α) :
    l.getD i d ∈ l := by
  induction l generalizing i with
  | nil => cases h
  | cons x xs ih =>
    cases i with
    | zero => exact List.mem_cons_self x xs
    | succ j => exact List.mem_cons_of_mem x (ih (Nat.lt_of_succ_lt_succ h))

/-! ## The Sparse Graph

The bodies of `SPARStwo::addGuard`, `SPARStwo::connect`,
`SPARStwo::uniteComponents`, `SPARStwo::clear` and the union-find
queries are not part of this source tree (declarations only, lines
316–424); the graph and its operations are modelled from the
specification (§3, §4.2).  The union-find over guard identifiers is
modelled extensionally by a component-label array (`disjointSets_`
up to its observable partition). -/

/-- `GuardType` (header lines 81–89): the provenance of a guard. -/
inductive GuardType where
  | START
  | GOAL
  | COVERAGE
  | CONNECTIVITY
  | INTERFACE
  | QUALITY
deriving DecidableEq, Repr

/-- The sparse roadmap: per-vertex configuration and provenance
(`stateProperty_`, `colorProperty_`), weighted undirected edges
(`weightProperty_`), and the component label of each vertex
(the observable partition of `disjointSets_`). -/
structure SparseGraph where
  states : List Config
  colors : List GuardType
  edges : List (Nat × Nat × ℚ)
  label : List Nat
deriving DecidableEq, Repr

/-- The graph with no guards. -/
def SparseGraph.empty : SparseGraph := ⟨[], [], [], []⟩

/-- `SPARStwo::distanceFunction` (header lines 553–556): the distance
between the states stored at two vertices. -/
def distanceFunction (si : SpaceInformation) (g : SparseGraph) (a b : Nat) : ℚ :=
  si.dist (g.states.getD a 0) (g.states.getD b 0)

/-- Modelled from the spec: `SPARStwo::addGuard` (declaration only,
line 418) clones the configuration, creates a vertex carrying it and
the provenance tag, placing the new guard in its own singleton
component; returns the new identifier. -/
def addGuard (g : SparseGraph) (st : Config) (t : GuardType) : SparseGraph × Nat :=
  ({ states := g.states ++ [st], colors := g.colors ++ [t],
     edges := g.edges, label := g.label ++ [g.states.length] }, g.states.length)

/-- Number of vertices carrying component label `l`. -/
def compSize (g : SparseGraph) (l : Nat) : Nat :=
  (g.label.filter (fun x => x == l)).length

/-- Modelled from the spec: `SPARStwo::uniteComponents` (declaration
only, lines 423–424) merges the components of `m1` and `m2`; per the
header comment the component with fewer elements gets the label of the
one with more elements. -/
def uniteComponents (g : SparseGraph) (m1 m2 : Nat) : SparseGraph :=
  if compSize g (g.label.getD m1 m1) < compSize g (g.label.getD m2 m2) then
    { g with label :=
        g.label.map (fun x => if x = g.label.getD m1 m1 then g.label.getD m2 m2 else x) }
  else
    { g with label :=
        g.label.map (fun x => if x = g.label.getD m2 m2 then g.label.getD m1 m1 else x) }

/-- Modelled from the spec: `SPARStwo::connect` (declaration only,
lines 420–421) adds an edge weighted by the distance between the two
guards' configurations and merges their union-find components. -/
def connect (si : SpaceInformation) (g : SparseGraph) (v vp : Nat) : SparseGraph :=
  uniteComponents
    { g with edges := (v, vp, distanceFunction si g v vp) :: g.edges } v vp

/-- Modelled from the spec: the union-find `sameComponent` query —
two guards compare equal iff they carry the same component label. -/
def sameComponent (g : SparseGraph) (u v : Nat) : Bool :=
  g.label.getD u u == g.label.getD v v

/-- Modelled from the spec: `SPARStwo::clear` (declaration only, line
328) frees every guard configuration and every witness record and
empties the graph. -/
def clear (_ : SparseGraph) : SparseGraph := SparseGraph.empty

/-- Two vertices are joined by an explicit edge (in either
orientation). -/
def edgeAdj (E : List (Nat × Nat × ℚ)) (x y : Nat) : Prop :=
  ∃ w, (x, y, w) ∈ E ∨ (y, x, w) ∈ E

/-- `x` and `y` are connected by some path of explicit edges. -/
def Connected (E : List (Nat × Nat × ℚ)) : Nat → Nat → Prop :=
  Relation.ReflTransGen (edgeAdj E)

/-- Graph states reachable by `addGuard` / `connect` (on existing
vertices) from the empty graph. -/
inductive ReachSG (si : SpaceInformation) : SparseGraph → Prop where
  | empty : ReachSG si SparseGraph.empty
  | addGuard {g} (st : Config) (t : GuardType) :
      ReachSG si g → ReachSG si (addGuard g st t).1
  | connect {g} (u v : Nat) :
      u < g.states.length → v < g.states.length →
      ReachSG si g → ReachSG si (connect si g u v)

theorem edgeAdj_symm {E : List (Nat × Nat × ℚ)} : Symmetric (edgeAdj E) := by
  intro x y hxy
  obtain ⟨w, hw⟩ := hxy
  exact ⟨w, hw.symm⟩

theorem Connected.symm {E : List (Nat × Nat × ℚ)} {x y : Nat}
    (h : Connected E x y) : Connected E y x :=
  (Relation.ReflTransGen.symmetric edgeAdj_symm) h

theorem Connected.trans {E : List (Nat × Nat × ℚ)} {x y z : Nat}
    (hxy : Connected E x y) (hyz : Connected E y z) : Connected E x z :=
  Relation.ReflTransGen.trans hxy hyz

theorem Connected.refl {E : List (Nat × Nat × ℚ)} {x : Nat} : Connected E x x :=
  Relation.ReflTransGen.refl

theorem edgeAdj_cons {E : List (Nat × Nat × ℚ)} {u v x y : Nat} {w : ℚ} :
    edgeAdj ((u, v, w) :: E) x y ↔
      edgeAdj E x y ∨ (x = u ∧ y = v) ∨ (x = v ∧ y = u) := by
  constructor
  · rintro ⟨w', hmem | hmem⟩
    · rcases List.mem_cons.mp hmem with heq | hold
      · simp only [Prod.mk.injEq] at heq
        exact Or.inr (Or.inl ⟨heq.1, heq.2.1⟩)
      · exact Or.inl ⟨w', Or.inl hold⟩
    · rcases List.mem_cons.mp hmem with heq | hold
      · simp only [Prod.mk.injEq] at heq
        exact Or.inr (Or.inr ⟨heq.2.1, heq.1⟩)
      · exact Or.inl ⟨w', Or.inr hold⟩
  · rintro (⟨w', hold | hold⟩ | ⟨hx, hy⟩ | ⟨hx, hy⟩)
    · exact ⟨w', Or.inl (List.mem_cons_of_mem _ hold)⟩
    · exact ⟨w', Or.inr (List.mem_cons_of_mem _ hold)⟩
    · subst hx; subst hy
      exact ⟨w, Or.inl (List.mem_cons_self _ _)⟩
    · subst hx; subst hy
      exact ⟨w, Or.inr (List.mem_cons_self _ _)⟩

theorem connected_mono_cons {E : List (Nat × Nat × ℚ)} {e : Nat × Nat × ℚ} {x y : Nat}
    (h : Connected E x y) : Connected (e :: E) x y := by
  refine Relation.ReflTransGen.mono ?_ h
  rintro a b ⟨w', hmem⟩
  refine ⟨w', ?_⟩
  rcases hmem with hm | hm
  · exact Or.inl (List.mem_cons_of_mem _ hm)
  · exact Or.inr (List.mem_cons_of_mem _ hm)

/-- Adding the edge `(u, v)` extends connectivity in exactly the
expected way. -/
theorem connected_cons {E : List (Nat × Nat × ℚ)} {u v : Nat} {w : ℚ} {x y : Nat} :
    Connected ((u, v, w) :: E) x y ↔
      Connected E x y ∨ (Connected E x u ∧ Connected E v y) ∨
        (Connected E x v ∧ Connected E u y) := by
  constructor
  · intro h
    induction h with
    | refl => exact Or.inl Connected.refl
    | tail hxb hby ih =>
      rcases edgeAdj_cons.mp hby with hold | ⟨hb, hy⟩ | ⟨hb, hy⟩
      · rcases ih with h1 | ⟨h1, h2⟩ | ⟨h1, h2⟩
        · exact Or.inl (h1.trans (Relation.ReflTransGen.single hold))
        · exact Or.inr (Or.inl ⟨h1, h2.trans (Relation.ReflTransGen.single hold)⟩)
        · exact Or.inr (Or.inr ⟨h1, h2.trans (Relation.ReflTransGen.single hold)⟩)
      · subst hb; subst hy
        rcases ih with h1 | ⟨h1, h2⟩ | ⟨h1, h2⟩
        · exact Or.inr (Or.inl ⟨h1, Connected.refl⟩)
        · exact Or.inr (Or.inl ⟨h1, Connected.refl⟩)
        · exact Or.inl h1
      · subst hb; subst hy
        rcases ih with h1 | ⟨h1, h2⟩ | ⟨h1, h2⟩
        · exact Or.inr (Or.inr ⟨h1, Connected.refl⟩)
        · exact Or.inl h1
        · exact Or.inr (Or.inr ⟨h1, Connected.refl⟩)
  · have hedge : edgeAdj ((u, v, w) :: E) u v :=
      ⟨w, Or.inl (List.mem_cons_self _ _)⟩
    rintro (h1 | ⟨h1, h2⟩ | ⟨h1, h2⟩)
    · exact connected_mono_cons h1
    · exact ((connected_mono_cons h1).trans
        (Relation.ReflTransGen.single hedge)).trans (connected_mono_cons h2)
    · exact ((connected_mono_cons h1).trans
        (Relation.ReflTransGen.single (edgeAdj_symm hedge))).trans (connected_mono_cons h2)

/-- A vertex with no incident edge is connected only to itself. -/
theorem connected_isolated {E : List (Nat × Nat × ℚ)} {x y : Nat}
    (h : Connected E x y) (hiso : ∀ z, ¬ edgeAdj E x z) : x = y := by
  rcases Relation.ReflTransGen.cases_head h with heq | ⟨c, hc, _⟩
  · exact heq
  · exact absurd hc (hiso c)

/-- The invariant of reachable sparse graphs: property maps have one
entry per vertex, labels and edge endpoints stay in range, the label
partition coincides with edge-path connectivity, and every stored edge
weight equals the distance between its endpoints' configurations. -/
def sgInv (si : SpaceInformation) (g : SparseGraph) : Prop :=
  g.label.length = g.states.length ∧
  g.colors.length = g.states.length ∧
  (∀ l ∈ g.label, l < g.states.length) ∧
  (∀ e ∈ g.edges, e.1 < g.states.length ∧ e.2.1 < g.states.length) ∧
  (∀ u v, u < g.states.length → v < g.states.length →
    (g.label.getD u u = g.label.getD v v ↔ Connected g.edges u v)) ∧
  (∀ e ∈ g.edges, e.2.2 = distanceFunction si g e.1 e.2.1)

/-- Relabeling one endpoint's component to the other's tracks exactly
the connectivity gained by inserting the edge `(u, v)`. -/
theorem merged_label_iff {L : List Nat} {E : List (Nat × Nat × ℚ)} {u v : Nat} {w0 : ℚ}
    {n : Nat} (hL : L.length = n)
    (hiff : ∀ x y, x < n → y < n → (L.getD x x = L.getD y y ↔ Connected E x y))
    (hu : u < n) (hv : v < n) {lf lt : Nat}
    (hflt : (lf = L.getD u u ∧ lt = L.getD v v) ∨
            (lf = L.getD v v ∧ lt = L.getD u u)) :
    ∀ x y, x < n → y < n →
      ((L.map (fun z => if z = lf then lt else z)).getD x x =
        (L.map (fun z => if z = lf then lt else z)).getD y y ↔
        Connected ((u, v, w0) :: E) x y) := by
  intro x y hx hy
  have hdx : L.getD x 0 = L.getD x x := getD_eq_of_lt (by omega) 0 x
  have hdy : L.getD y 0 = L.getD y y := getD_eq_of_lt (by omega) 0 y
  have hmx := getD_map (f := fun z => if z = lf then lt else z) (l := L) (i := x)
    (d := x) (by omega)
  have hmy := getD_map (f := fun z => if z = lf then lt else z) (l := L) (i := y)
    (d := y) (by omega)
  rw [hdx] at hmx
  rw [hdy] at hmy
  rw [hmx, hmy, connected_cons, ← hiff x y hx hy, ← hiff x u hx hu,
    ← hiff v y hv hy, ← hiff x v hx hv, ← hiff u y hu hy]
  dsimp only
  rcases hflt with ⟨hf, ht⟩ | ⟨hf, ht⟩ <;> subst hf <;> subst ht <;>
    split_ifs <;> omega

/-- The invariant is preserved by the relabeling half of `connect`,
whichever direction the size comparison picks. -/
theorem relabel_inv {si : SpaceInformation} {g : SparseGraph} {u v lf lt : Nat}
    (inv : sgInv si g) (hu : u < g.states.length) (hv : v < g.states.length)
    (hflt : (lf = g.label.getD u u ∧ lt = g.label.getD v v) ∨
            (lf = g.label.getD v v ∧ lt = g.label.getD u u)) :
    sgInv si { states := g.states, colors := g.colors,
               edges := (u, v, distanceFunction si g u v) :: g.edges,
               label := g.label.map (fun z => if z = lf then lt else z) } := by
  obtain ⟨hL, hC, hlab, hedge, hiff, hw⟩ := inv
  refine ⟨?_, ?_, ?_, ?_, ?_, ?_⟩
  · simpa using hL
  · exact hC
  · intro l hl
    rcases List.mem_map.mp hl with ⟨z, hz, hfz⟩
    by_cases hzf : z = lf
    · rw [if_pos hzf] at hfz
      subst hfz
      rcases hflt with ⟨_, ht⟩ | ⟨_, ht⟩
      · subst ht
        exact hlab _ (getD_mem (by omega) v)
      · subst ht
        exact hlab _ (getD_mem (by omega) u)
    · rw [if_neg hzf] at hfz
      subst hfz
      exact hlab z hz
  · intro e he
    rcases List.mem_cons.mp he with heq | hold
    · subst heq
      exact ⟨hu, hv⟩
    · exact hedge e hold
  · exact merged_label_iff hL hiff hu hv hflt
  · intro e he
    rcases List.mem_cons.mp he with heq | hold
    · subst heq
      rfl
    · exact hw e hold

/-- Every reachable sparse graph satisfies the full invariant. -/
theorem reachSG_inv {si : SpaceInformation} {g : SparseGraph} (hr : ReachSG si g) :
    sgInv si g := by
  induction hr with
  | empty =>
    refine ⟨rfl, rfl, ?_, ?_, ?_, ?_⟩
    · intro l hl; cases hl
    · intro e he; cases he
    · intro u v hu _; exact absurd hu (Nat.not_lt_zero u)
    · intro e he; cases he
  | addGuard st t hr ih =>
    obtain ⟨hL, hC, hlab, hedge, hiff, hw⟩ := ih
    rename_i g
    refine ⟨?_, ?_, ?_, ?_, ?_, ?_⟩
    · simp [addGuard, hL]
    · simp [addGuard, hC]
    · intro l hl
      simp only [addGuard, List.length_append, List.length_cons, List.length_nil]
      rcases List.mem_append.mp hl with h1 | h2
      · have := hlab l h1; omega
      · have := List.mem_singleton.mp h2; omega
    · intro e he
      have := hedge e he
      simp only [addGuard, List.length_append, List.length_cons, List.length_nil]
      omega
    · intro x y hx hy
      simp only [addGuard, List.length_append, List.length_cons, List.length_nil] at hx hy
      have hnoadj : ∀ z, ¬ edgeAdj g.edges g.states.length z := by
        intro z hadj
        obtain ⟨w', hzmem | hzmem⟩ := hadj
        · exact absurd (hedge _ hzmem).1 (Nat.lt_irrefl _)
        · exact absurd (hedge _ hzmem).2 (Nat.lt_irrefl _)
      by_cases hxn : x < g.states.length <;> by_cases hyn : y < g.states.length
      · show (g.label ++ [g.states.length]).getD x x =
          (g.label ++ [g.states.length]).getD y y ↔ Connected g.edges x y
        rw [getD_concat_lt (by omega), getD_concat_lt (by omega)]
        exact hiff x y hxn hyn
      · have hyeq : y = g.states.length := by omega
        subst hyeq
        have hcl : (g.label ++ [g.states.length]).getD g.states.length g.states.length =
            g.states.length := by
          rw [← hL]
          exact getD_concat_len
        show (g.label ++ [g.states.length]).getD x x =
          (g.label ++ [g.states.length]).getD g.states.length g.states.length ↔
          Connected g.edges x g.states.length
        rw [getD_concat_lt (by omega), hcl]
        constructor
        · intro heq
          exact absurd (hlab _ (heq ▸ getD_mem (by omega) x)) (by omega)
        · intro hconn
          exact absurd (connected_isolated hconn.symm hnoadj).symm (by omega)
      · have hxeq : x = g.states.length := by omega
        subst hxeq
        have hcl : (g.label ++ [g.states.length]).getD g.states.length g.states.length =
            g.states.length := by
          rw [← hL]
          exact getD_concat_len
        show (g.label ++ [g.states.length]).getD g.states.length g.states.length =
          (g.label ++ [g.states.length]).getD y y ↔
          Connected g.edges g.states.length y
        rw [hcl, getD_concat_lt (by omega)]
        constructor
        · intro heq
          exact absurd (hlab _ (heq.symm ▸ getD_mem (by omega) y)) (by omega)
        · intro hconn
          exact absurd (connected_isolated hconn hnoadj) (by omega)
      · have hxeq : x = g.states.length := by omega
        have hyeq : y = g.states.length := by omega
        subst hxeq; subst hyeq
        exact ⟨fun _ => Connected.refl, fun _ => rfl⟩
    · intro e he
      have hr := hedge e he
      have := hw e he
      show e.2.2 = si.dist ((g.states ++ [st]).getD e.1 0) ((g.states ++ [st]).getD e.2.1 0)
      rw [getD_concat_lt hr.1, getD_concat_lt hr.2]
      exact this
  | connect u v hu hv hr ih =>
    show sgInv si (uniteComponents _ u v)
    unfold uniteComponents
    split
    · exact relabel_inv ih hu hv (Or.inl ⟨rfl, rfl⟩)
    · exact relabel_inv ih hu hv (Or.inr ⟨rfl, rfl⟩)

theorem connect_states {si : SpaceInformation} {g : SparseGraph} {u v : Nat} :
    (connect si g u v).states = g.states := by
  unfold connect uniteComponents
  split <;> rfl

theorem connect_colors {si : SpaceInformation} {g : SparseGraph} {u v : Nat} :
    (connect si g u v).colors = g.colors := by
  unfold connect uniteComponents
  split <;> rfl

theorem connect_edges {si : SpaceInformation} {g : SparseGraph} {u v : Nat} :
    (connect si g u v).edges = (u, v, distanceFunction si g u v) :: g.edges := by
  unfold connect uniteComponents
  split <;> rfl

/-- C3: on every reachable sparse graph the union-find partition places
two guards in the same component iff a path of explicit edges connects
them; `connect(u,v)` both inserts the edge and merges the two
components; and neither `addGuard` nor `connect` removes a vertex or an
edge. -/
theorem C3_unionFind_consistency {si : SpaceInformation} :
    (∀ g, ReachSG si g → ∀ u v, u < g.states.length → v < g.states.length →
      (sameComponent g u v = true ↔ Connected g.edges u v)) ∧
    (∀ g u v, u < g.states.length → v < g.states.length → ReachSG si g →
      (u, v, distanceFunction si g u v) ∈ (connect si g u v).edges ∧
      sameComponent (connect si g u v) u v = true) ∧
    (∀ g (st : Config) (t : GuardType),
      (addGuard g st t).1.states.length = g.states.length + 1 ∧
      (addGuard g st t).1.edges = g.edges) ∧
    (∀ g u v, (connect si g u v).states.length = g.states.length ∧
      ∀ e ∈ g.edges, e ∈ (connect si g u v).edges) := by
  have hmain : ∀ g, ReachSG si g → ∀ u v, u < g.states.length → v < g.states.length →
      (sameComponent g u v = true ↔ Connected g.edges u v) := by
    intro g hr u v hu hv
    unfold sameComponent
    rw [beq_iff_eq]
    exact (reachSG_inv hr).2.2.2.2.1 u v hu hv
  refine ⟨hmain, ?_, ?_, ?_⟩
  · intro g u v hu hv hr
    have hmem : (u, v, distanceFunction si g u v) ∈ (connect si g u v).edges := by
      rw [connect_edges]
      exact List.mem_cons_self _ _
    refine ⟨hmem, ?_⟩
    have hr' : ReachSG si (connect si g u v) := ReachSG.connect u v hu hv hr
    have hu' : u < (connect si g u v).states.length := by rw [connect_states]; exact hu
    have hv' : v < (connect si g u v).states.length := by rw [connect_states]; exact hv
    exact (hmain _ hr' u v hu' hv').mpr
      (Relation.ReflTransGen.single ⟨distanceFunction si g u v, Or.inl hmem⟩)
  · intro g st t
    exact ⟨by simp [addGuard], rfl⟩
  · intro g u v
    refine ⟨by rw [connect_states], fun e he => ?_⟩
    rw [connect_edges]
    exact List.mem_cons_of_mem _ he

/-- A two-guard reachable graph for witnesses. -/
def gW2 : SparseGraph :=
  (addGuard (addGuard SparseGraph.empty 3 GuardType.COVERAGE).1 10 GuardType.CONNECTIVITY).1

theorem gW2_reach : ReachSG si0 gW2 :=
  ReachSG.addGuard 10 GuardType.CONNECTIVITY
    (ReachSG.addGuard 3 GuardType.COVERAGE ReachSG.empty)

/-- Witness for C3 on a concrete two-guard graph: after `connect 0 1`
the union-find query agrees with path connectivity, and the edge is
present. -/
theorem C3_unionFind_consistency_witness :
    (sameComponent (connect si0 gW2 0 1) 0 1 = true ↔
      Connected (connect si0 gW2 0 1).edges 0 1) ∧
    (0, 1, distanceFunction si0 gW2 0 1) ∈ (connect si0 gW2 0 1).edges :=
  ⟨C3_unionFind_consistency.1 _
      (ReachSG.connect 0 1 (by decide) (by decide) gW2_reach) 0 1
      (by rw [connect_states]; decide) (by rw [connect_states]; decide),
   (C3_unionFind_consistency.2.1 gW2 0 1 (by decide) (by decide) gW2_reach).1⟩

/-- C8: `connect(u, v)` records the edge with weight equal to the
metric distance between the two stored configurations, every edge of a
reachable graph still carries exactly that distance (vertex
configurations are never mutated), and both graph-growing operations
preserve all existing edges together with their weights. -/
theorem C8_edge_weight_fixed_at_insertion {si : SpaceInformation} :
    (∀ g u v, (u, v, distanceFunction si g u v) ∈ (connect si g u v).edges) ∧
    (∀ g, ReachSG si g → ∀ e ∈ g.edges, e.2.2 = distanceFunction si g e.1 e.2.1) ∧
    (∀ g (st : Config) (t : GuardType), ∀ e ∈ g.edges, e ∈ (addGuard g st t).1.edges) ∧
    (∀ g u v, ∀ e ∈ g.edges, e ∈ (connect si g u v).edges) := by
  refine ⟨?_, ?_, ?_, ?_⟩
  · intro g u v
    rw [connect_edges]
    exact List.mem_cons_self _ _
  · intro g hr
    exact (reachSG_inv hr).2.2.2.2.2
  · intro g st t e he
    exact he
  · intro g u v e he
    rw [connect_edges]
    exact List.mem_cons_of_mem _ he

/-- Witness for C8: on the concrete graph `gW2` the edge created by
`connect 0 1` carries weight 7 = |3 − 10|, the distance between the two
stored configurations. -/
theorem C8_edge_weight_fixed_at_insertion_witness :
    (0, 1, distanceFunction si0 gW2 0 1) ∈ (connect si0 gW2 0 1).edges ∧
    (0, 1, (7 : ℚ)).2.2 =
      distanceFunction si0 (connect si0 gW2 0 1) (0, 1, (7 : ℚ)).1 (0, 1, (7 : ℚ)).2.1 :=
  ⟨C8_edge_weight_fixed_at_insertion.1 gW2 0 1,
   C8_edge_weight_fixed_at_insertion.2.1 _
     (ReachSG.connect 0 1 (by decide) (by decide) gW2_reach) (0, 1, (7 : ℚ))
     (by decide)⟩

/-! ## The coverage criterion

`SPARStwo::findGraphNeighbors` and `SPARStwo::checkAddCoverage` are
declared at lines 380 and 365; their bodies are not in this source
tree and are modelled from the specification (§4.3, §4.4). -/

theorem isEmpty_iff_nil {l : List Nat} : l.isEmpty = true ↔ l = [] := by
  cases l <;> simp

/-- Modelled from the spec: `SPARStwo::findGraphNeighbors` (declaration
only, line 380) — all guards within metric distance `sparseDelta` of
`st` (the graph neighborhood), and the subset mutually visible from
`st` (the visible neighborhood). -/
def findGraphNeighbors (si : SpaceInformation) (g : SparseGraph) (sparseDelta : ℚ)
    (st : Config) : List Nat × List Nat :=
  ((List.range g.states.length).filter
      (fun v => decide (si.dist st (g.states.getD v 0) ≤ sparseDelta)),
   (List.range g.states.length).filter
      (fun v => decide (si.dist st (g.states.getD v 0) ≤ sparseDelta)
        && si.checkMotion st (g.states.getD v 0)))

/-- Modelled from the spec: `SPARStwo::checkAddCoverage` (declaration
only, line 365) — if the visible neighborhood of the sample is empty,
admit it as a guard with provenance COVERAGE and report success,
otherwise change nothing. -/
def checkAddCoverage (si : SpaceInformation) (g : SparseGraph) (sparseDelta : ℚ)
    (qNew : Config) : SparseGraph × Bool :=
  if (findGraphNeighbors si g sparseDelta qNew).2.isEmpty then
    ((addGuard g qNew GuardType.COVERAGE).1, true)
  else
    (g, false)

/-- A space information whose local planner reports every motion
infeasible (used to separate metric range from visibility). -/
def siBlind : SpaceInformation :=
  ⟨fun a b => ((a - b).natAbs : ℚ), fun _ _ => false⟩

/-- A one-guard graph with its guard at configuration 0. -/
def gOne : SparseGraph := (addGuard SparseGraph.empty 0 GuardType.COVERAGE).1

/-- Counterexample to C4 as stated: when the existing guard is within
metric distance sparseDelta but the local motion to it is infeasible,
the visible neighborhood is empty, so the coverage criterion fires and
admits a COVERAGE guard even though another guard is within metric
range — the criterion tests the *visible* neighborhood, not bare metric
distance. -/
theorem C4_counterexample_guard_within_metric_range :
    (checkAddCoverage siBlind gOne 5 1).2 = true ∧
    (checkAddCoverage siBlind gOne 5 1).1.colors =
      gOne.colors ++ [GuardType.COVERAGE] ∧
    0 < gOne.states.length ∧
    siBlind.dist 1 (gOne.states.getD 0 0) ≤ 5 := by
  refine ⟨by decide, by decide, by decide, by decide⟩

/-- C4 (amended): the coverage criterion fires exactly when the
sample's visible neighborhood is empty; a guard it admits carries
provenance COVERAGE, and at insertion time no other guard was both
within sparse visibility range (metric distance ≤ sparseDelta) and
mutually visible from the sample.  When it does not fire, the graph is
untouched. -/
theorem C4_coverage_guarantee {si : SpaceInformation} {g : SparseGraph}
    {sparseDelta : ℚ} {qNew : Config} :
    ((checkAddCoverage si g sparseDelta qNew).2 = true ↔
      (findGraphNeighbors si g sparseDelta qNew).2 = []) ∧
    ((checkAddCoverage si g sparseDelta qNew).2 = true →
      (∀ v, v < g.states.length →
        ¬(si.dist qNew (g.states.getD v 0) ≤ sparseDelta ∧
          si.checkMotion qNew (g.states.getD v 0) = true)) ∧
      (checkAddCoverage si g sparseDelta qNew).1.colors =
        g.colors ++ [GuardType.COVERAGE] ∧
      (checkAddCoverage si g sparseDelta qNew).1.states.length =
        g.states.length + 1) ∧
    ((checkAddCoverage si g sparseDelta qNew).2 = false →
      (checkAddCoverage si g sparseDelta qNew).1 = g) := by
  refine ⟨?_, ?_, ?_⟩
  · unfold checkAddCoverage
    by_cases hE : (findGraphNeighbors si g sparseDelta qNew).2.isEmpty = true
    · rw [if_pos hE]
      simp [isEmpty_iff_nil.mp hE]
    · rw [if_neg hE]
      constructor
      · intro hcon
        exact absurd hcon (by simp)
      · intro hnil
        exact absurd (isEmpty_iff_nil.mpr hnil) hE
  · intro hfire
    unfold checkAddCoverage at hfire ⊢
    by_cases hE : (findGraphNeighbors si g sparseDelta qNew).2.isEmpty = true
    · rw [if_pos hE]
      refine ⟨?_, rfl, by simp [addGuard]⟩
      rintro v hv ⟨hdist, hmot⟩
      have hcond : (decide (si.dist qNew (g.states.getD v 0) ≤ sparseDelta)
          && si.checkMotion qNew (g.states.getD v 0)) = true := by
        rw [decide_eq_true hdist, hmot]
        rfl
      have hmem : v ∈ (List.range g.states.length).filter
          (fun v => decide (si.dist qNew (g.states.getD v 0) ≤ sparseDelta)
            && si.checkMotion qNew (g.states.getD v 0)) :=
        List.mem_filter.mpr ⟨List.mem_range.mpr hv, hcond⟩
      have hmem' : v ∈ (findGraphNeighbors si g sparseDelta qNew).2 := hmem
      rw [isEmpty_iff_nil.mp hE] at hmem'
      cases hmem'
    · rw [if_neg hE] at hfire
      exact absurd hfire (by simp)
  · intro hfalse
    unfold checkAddCoverage at hfalse ⊢
    by_cases hE : (findGraphNeighbors si g sparseDelta qNew).2.isEmpty = true
    · rw [if_pos hE] at hfalse
      exact absurd hfalse (by simp)
    · rw [if_neg hE]

/-- Witness for C4 (amended) at a concrete firing call on the empty
graph. -/
theorem C4_coverage_guarantee_witness :
    (∀ v, v < SparseGraph.empty.states.length →
      ¬(si0.dist 1 (SparseGraph.empty.states.getD v 0) ≤ 5 ∧
        si0.checkMotion 1 (SparseGraph.empty.states.getD v 0) = true)) ∧
    (checkAddCoverage si0 SparseGraph.empty 5 1).1.colors =
      SparseGraph.empty.colors ++ [GuardType.COVERAGE] ∧
    (checkAddCoverage si0 SparseGraph.empty 5 1).1.states.length =
      SparseGraph.empty.states.length + 1 :=
  C4_coverage_guarantee.2.1 (by decide)

/-- C6: clearing is idempotent and never double-frees: a second
`clearInterfaceData` right after a successful one succeeds and returns
exactly the same record (all four slots null, `d_` infinite) and the
same heap (no state is freed twice); `clearSafeState` on a null slot
performs no free and leaves the heap untouched; and `clear()` twice
yields the same empty graph as `clear()` once. -/
theorem C6_clear_idempotent :
    (∀ (iD iD' : InterfaceData) (h h' : Heap),
      clearInterfaceData iD h = some (iD', h') →
      clearInterfaceData iD' h' = some (iD', h')) ∧
    (∀ h : Heap, clearSafeState none h = some (none, h)) ∧
    (∀ g : SparseGraph, clear (clear g) = clear g) := by
  refine ⟨?_, fun h => rfl, fun g => rfl⟩
  intro iD iD' h h' hs
  obtain ⟨hinit, _⟩ := clearInterfaceData_eq_some hs
  subst hinit
  rfl

/-- Witness for C6: after clearing the concrete record `iD1` over
`h1c`, clearing again returns the identical record and heap. -/
theorem C6_clear_idempotent_witness :
    clearInterfaceData InterfaceData.init ⟨[(0, 3), (1, 10)], 4⟩ =
      some (InterfaceData.init, ⟨[(0, 3), (1, 10)], 4⟩) :=
  C6_clear_idempotent.1 iD1 InterfaceData.init h1c ⟨[(0, 3), (1, 10)], 4⟩ (by decide)

/-! ## Interface abandonment

`SPARStwo::abandonLists` / `SPARStwo::deletePairInfo` are declared at
lines 412 and 415; their bodies are not in this source tree and are
modelled from the specification (§4.4): every existing Interface
Witness record whose close point lies within the new guard's visibility
range of `st` is cleared, its configurations freed. -/

/-- The ids held by a record's four slots. -/
def slotIds (iD : InterfaceData) : List Nat :=
  iD.points_.1.toList ++ iD.points_.2.toList ++
    iD.sigmas_.1.toList ++ iD.sigmas_.2.toList

theorem mem_slotIds {iD : InterfaceData} {a : Nat} :
    a ∈ slotIds iD ↔ (iD.points_.1 = some a ∨ iD.points_.2 = some a ∨
      iD.sigmas_.1 = some a ∨ iD.sigmas_.2 = some a) := by
  unfold slotIds
  simp [List.mem_append, Option.mem_toList, Option.mem_def]

instance (iD : InterfaceData) (a : Nat) : Decidable (a ∈ slotIds iD) := by
  unfold slotIds; infer_instance

/-- Does this (nullable) close-point slot hold a live state within
`delta` of `st`? -/
def closeWithin (si : SpaceInformation) (h : Heap) (delta : ℚ) (st : Config) :
    Option Nat → Bool
  | some id =>
    match h.lookup id with
    | some v => decide (si.dist v st ≤ delta)
    | none => false
  | none => false

/-- Abandonment test: the record holds a close point (either slot)
within `delta` of the new guard's configuration `st`. -/
def hasClosePointWithin (si : SpaceInformation) (h : Heap) (delta : ℚ) (st : Config)
    (iD : InterfaceData) : Bool :=
  closeWithin si h delta st iD.points_.1 || closeWithin si h delta st iD.points_.2

/-- Modelled from the spec: `SPARStwo::abandonLists` (declaration only,
line 412, with `deletePairInfo`, line 415) — walk the witness records
and clear (free) every record whose close point lies within the new
guard's visibility range of `st`. -/
def abandonLists (si : SpaceInformation) (delta : ℚ) (st : Config) :
    InterfaceHash → Heap → Option (InterfaceHash × Heap)
  | [], h => some ([], h)
  | e :: rest, h =>
    if hasClosePointWithin si h delta st e.2 then
      (clearInterfaceData e.2 h).bind (fun r =>
        (abandonLists si delta st rest r.2).map (fun r' =>
          ((e.1, r.1) :: r'.1, r'.2)))
    else
      (abandonLists si delta st rest h).map (fun r' =>
        (e :: r'.1, r'.2))

theorem clearSafeState_eq_some {slot : Option Nat} {h : Heap} {r : Option Nat × Heap}
    (hs : clearSafeState slot h = some r) :
    r.1 = none ∧ r.2.next = h.next ∧
    ∀ q, r.2.lookup q = if slot = some q then none else h.lookup q := by
  cases slot with
  | none =>
    cases hs
    exact ⟨rfl, rfl, fun q => by rw [if_neg (by simp)]⟩
  | some o =>
    unfold clearSafeState freeIfSet at hs
    rw [Option.map_eq_some'] at hs
    obtain ⟨h₂, hf, hr⟩ := hs
    subst hr
    refine ⟨rfl, Heap.next_freeState hf, fun q => ?_⟩
    rw [Heap.lookup_freeState hf q]
    by_cases hq : q = o
    · subst hq; rw [if_pos rfl, if_pos rfl]
    · rw [if_neg hq, if_neg (by simp only [Option.some.injEq]; exact fun hh => hq hh.symm)]

/-- A successful `clearInterfaceData` returns the fresh record and
frees exactly the four slots' states. -/
theorem clearInterfaceData_lookup {iD : InterfaceData} {h : Heap}
    {iD' : InterfaceData} {h' : Heap}
    (hs : clearInterfaceData iD h = some (iD', h')) :
    iD' = InterfaceData.init ∧
    ∀ q, h'.lookup q = if q ∈ slotIds iD then none else h.lookup q := by
  obtain ⟨hinit, h1, h2, h3, hc1, hc2, hc3, hc4⟩ := clearInterfaceData_eq_some hs
  obtain ⟨_, _, hl1⟩ := clearSafeState_eq_some hc1
  obtain ⟨_, _, hl2⟩ := clearSafeState_eq_some hc2
  obtain ⟨_, _, hl3⟩ := clearSafeState_eq_some hc3
  obtain ⟨_, _, hl4⟩ := clearSafeState_eq_some hc4
  refine ⟨hinit, fun q => ?_⟩
  rw [hl4 q, hl3 q, hl2 q, hl1 q]
  by_cases hq : q ∈ slotIds iD
  · rw [if_pos hq]
    rcases mem_slotIds.mp hq with hm | hm | hm | hm <;> split_ifs <;> simp_all
  · rw [if_neg hq]
    rw [mem_slotIds] at hq
    push_neg at hq
    rw [if_neg hq.2.2.2, if_neg hq.2.2.1, if_neg hq.2.1, if_neg hq.1]

theorem closeWithin_congr {si : SpaceInformation} {h h₂ : Heap} {delta : ℚ}
    {st : Config} {slot : Option Nat}
    (hagree : ∀ a, slot = some a → h₂.lookup a = h.lookup a) :
    closeWithin si h₂ delta st slot = closeWithin si h delta st slot := by
  cases slot with
  | none => rfl
  | some a =>
    simp only [closeWithin]
    rw [hagree a rfl]

theorem closeWithin_false_of_submap {si : SpaceInformation} {h h₂ : Heap} {delta : ℚ}
    {st : Config} {slot : Option Nat}
    (hsub : ∀ q v, h₂.lookup q = some v → h.lookup q = some v)
    (hc : closeWithin si h delta st slot = false) :
    closeWithin si h₂ delta st slot = false := by
  cases slot with
  | none => rfl
  | some a =>
    simp only [closeWithin] at hc ⊢
    cases hl : h₂.lookup a with
    | none => rfl
    | some v =>
      rw [hsub a v hl] at hc
      exact hc

/-- The abandonment test only depends on the record's own close-point
lookups. -/
theorem hasClose_congr {si : SpaceInformation} {h h₂ : Heap} {delta : ℚ}
    {st : Config} {iD : InterfaceData}
    (hagree : ∀ a, (iD.points_.1 = some a ∨ iD.points_.2 = some a) →
      h₂.lookup a = h.lookup a) :
    hasClosePointWithin si h₂ delta st iD = hasClosePointWithin si h delta st iD := by
  unfold hasClosePointWithin
  rw [closeWithin_congr (fun a ha => hagree a (Or.inl ha)),
    closeWithin_congr (fun a ha => hagree a (Or.inr ha))]

/-- The abandonment test stays false when the heap only shrinks. -/
theorem hasClose_false_of_submap {si : SpaceInformation} {h h₂ : Heap} {delta : ℚ}
    {st : Config} {iD : InterfaceData}
    (hsub : ∀ q v, h₂.lookup q = some v → h.lookup q = some v)
    (hc : hasClosePointWithin si h delta st iD = false) :
    hasClosePointWithin si h₂ delta st iD = false := by
  unfold hasClosePointWithin at hc ⊢
  rw [Bool.or_eq_false_iff] at hc ⊢
  exact ⟨closeWithin_false_of_submap hsub hc.1, closeWithin_false_of_submap hsub hc.2⟩

/-- C5: after a successful interface-abandonment pass for a new guard
at `st`, no remaining record holds a close point within the guard's
visibility range of `st`; keys and positions are preserved, the heap
only shrinks, and — for stores whose records own their states
exclusively — every record that was within range has been cleared with
its four configurations freed, while the others are untouched. -/
theorem C5_abandonment_correctness {si : SpaceInformation} {delta : ℚ} {st : Config} :
    ∀ (store : InterfaceHash) (h : Heap) (store' : InterfaceHash) (h' : Heap),
      abandonLists si delta st store h = some (store', h') →
      (∀ e' ∈ store', hasClosePointWithin si h' delta st e'.2 = false) ∧
      store'.length = store.length ∧
      (∀ q v, h'.lookup q = some v → h.lookup q = some v) ∧
      (store.Pairwise (fun e e' => ∀ a ∈ slotIds e.2, a ∉ slotIds e'.2) →
        ∀ i e, store.get? i = some e →
          ∃ e', store'.get? i = some e' ∧ e'.1 = e.1 ∧
            (hasClosePointWithin si h delta st e.2 = true →
              e'.2 = InterfaceData.init ∧ ∀ a ∈ slotIds e.2, h'.lookup a = none) ∧
            (hasClosePointWithin si h delta st e.2 = false → e'.2 = e.2)) := by
  intro store
  induction store with
  | nil =>
    intro h store' h' hs
    unfold abandonLists at hs
    cases hs
    refine ⟨?_, rfl, fun q v hv => hv, ?_⟩
    · intro e' he'
      cases he'
    · intro _ i e hget
      cases i <;> cases hget
  | cons e rest ih =>
    intro h store' h' hs
    unfold abandonLists at hs
    by_cases hc : hasClosePointWithin si h delta st e.2 = true
    · rw [if_pos hc] at hs
      rw [Option.bind_eq_some] at hs
      obtain ⟨r, hclear, hs⟩ := hs
      rw [Option.map_eq_some'] at hs
      obtain ⟨r', hrest, heq⟩ := hs
      obtain ⟨hrinit, hrlook⟩ := clearInterfaceData_lookup
        (show clearInterfaceData e.2 h = some (r.1, r.2) from hclear)
      obtain ⟨A_r, L_r, Sub_r, P_r⟩ := ih r.2 r'.1 r'.2 hrest
      simp only [Prod.mk.injEq] at heq
      obtain ⟨hstore, hh⟩ := heq
      subst hstore; subst hh
      refine ⟨?_, ?_, ?_, ?_⟩
      · intro e'' he''
        rcases List.mem_cons.mp he'' with he'' | he''
        · subst he''
          rw [show (e.1, r.1).2 = r.1 from rfl, hrinit]
          rfl
        · exact A_r e'' he''
      · simp [L_r]
      · intro q v hv
        have hv2 := Sub_r q v hv
        rw [hrlook q] at hv2
        by_cases hqm : q ∈ slotIds e.2
        · rw [if_pos hqm] at hv2
          cases hv2
        · rw [if_neg hqm] at hv2
          exact hv2
      · intro hpw i e₀ hget
        rw [List.pairwise_cons] at hpw
        obtain ⟨hdisj, hpw_rest⟩ := hpw
        cases i with
        | zero =>
          cases hget
          refine ⟨(e.1, r.1), rfl, rfl, ?_, ?_⟩
          · intro _
            refine ⟨hrinit, ?_⟩
            intro a ha
            cases hl : r'.2.lookup a with
            | none => rfl
            | some v =>
              have hsb := Sub_r a v hl
              rw [hrlook a, if_pos ha] at hsb
              cases hsb
          · intro hcf
            rw [hcf] at hc
            cases hc
        | succ j =>
          have he₀mem : e₀ ∈ rest := List.get?_mem hget
          have hagree : ∀ a, (e₀.2.points_.1 = some a ∨ e₀.2.points_.2 = some a) →
              r.2.lookup a = h.lookup a := by
            intro a ha
            have hinE : a ∈ slotIds e₀.2 := by
              rcases ha with h1 | h1
              · exact mem_slotIds.mpr (Or.inl h1)
              · exact mem_slotIds.mpr (Or.inr (Or.inl h1))
            have hnotin : a ∉ slotIds e.2 := fun hin => (hdisj e₀ he₀mem a hin) hinE
            rw [hrlook a, if_neg hnotin]
          have hcongr : hasClosePointWithin si r.2 delta st e₀.2 =
              hasClosePointWithin si h delta st e₀.2 := hasClose_congr hagree
          obtain ⟨e'', hget'', hkey, hflag, hnflag⟩ := P_r hpw_rest j e₀ hget
          refine ⟨e'', hget'', hkey, ?_, ?_⟩
          · intro ht
            exact hflag (by rw [hcongr]; exact ht)
          · intro hf
            exact hnflag (by rw [hcongr]; exact hf)
    · rw [if_neg hc] at hs
      rw [Option.map_eq_some'] at hs
      obtain ⟨r', hrest, heq⟩ := hs
      simp only [Prod.mk.injEq] at heq
      obtain ⟨hstore, hh⟩ := heq
      subst hstore; subst hh
      obtain ⟨A_r, L_r, Sub_r, P_r⟩ := ih h r'.1 r'.2 hrest
      have hcf : hasClosePointWithin si h delta st e.2 = false := by
        cases hcc : hasClosePointWithin si h delta st e.2
        · rfl
        · exact absurd hcc hc
      refine ⟨?_, ?_, Sub_r, ?_⟩
      · intro e'' he''
        rcases List.mem_cons.mp he'' with he'' | he''
        · subst he''
          exact hasClose_false_of_submap Sub_r hcf
        · exact A_r e'' he''
      · simp [L_r]
      · intro hpw i e₀ hget
        rw [List.pairwise_cons] at hpw
        obtain ⟨hdisj, hpw_rest⟩ := hpw
        cases i with
        | zero =>
          cases hget
          refine ⟨e, rfl, rfl, ?_, fun _ => rfl⟩
          intro ht
          rw [ht] at hcf
          cases hcf
        | succ j =>
          exact P_r hpw_rest j e₀ hget

/-- Witness store for C5: one record with a close point (id 0, value 1)
within range 5 of the new guard at 0, one record whose close point
(id 4, value 100) is far away. -/
def storeW : InterfaceHash :=
  [((0, 1), ⟨(some 0, some 1), (none, none), EDist.fin 49⟩),
   ((1, 2), ⟨(some 4, none), (none, none), EDist.inf⟩)]

/-- Witness heap for C5. -/
def hW : Heap := ⟨[(0, 1), (1, 50), (2, 2), (3, 60), (4, 100)], 5⟩

/-- The store after abandonment: the near record cleared, the far one
untouched. -/
def storeW' : InterfaceHash :=
  [((0, 1), InterfaceData.init), ((1, 2), ⟨(some 4, none), (none, none), EDist.inf⟩)]

/-- The heap after abandonment: ids 0 and 1 freed. -/
def hW' : Heap := ⟨[(2, 2), (3, 60), (4, 100)], 5⟩

/-- Witness for C5 at the concrete abandonment pass `storeW → storeW'`:
no surviving record has a close point within range 5 of the new guard
at 0. -/
theorem C5_abandonment_correctness_witness :
    storeW'.length = storeW.length ∧
    hasClosePointWithin si0 hW' 5 0 InterfaceData.init = false ∧
    hasClosePointWithin si0 hW' 5 0
      (⟨(some 4, none), (none, none), EDist.inf⟩ : InterfaceData) = false := by
  have hrun : abandonLists si0 5 0 storeW hW = some (storeW', hW') := by decide
  obtain ⟨hA, hL, _, _⟩ := C5_abandonment_correctness storeW hW storeW' hW' hrun
  exact ⟨hL, hA ((0, 1), InterfaceData.init) (by decide),
    hA ((1, 2), ⟨(some 4, none), (none, none), EDist.inf⟩) (by decide)⟩

/-! ## The construction driver (`SPARStwo::solve`)

`SPARStwo::solve` and `SPARStwo::haveSolution` are declared at lines
316/320 and 426–427; their bodies are not in this source tree and are
modelled from the specification (§4.5, §7). -/

/-- The three outcomes `solve` surfaces to the caller. -/
inductive SolveOutcome where
  | solutionFound
  | exhaustedNoSolution
  | invalidInput
deriving DecidableEq, Repr

/-- The loaded query: start and goal guard identifier sets
(`startM_`, `goalM_`). -/
structure Query where
  startM : List Nat
  goalM : List Nat

/-- Modelled from the spec: `SPARStwo::haveSolution` (declaration only,
lines 426–427) — some start guard and some goal guard lie in the same
connected component. -/
def haveSolution (g : SparseGraph) (query : Query) : Bool :=
  query.startM.any (fun s => query.goalM.any (fun t => sameComponent g s t))

/-- Modelled from the spec: the construction loop of `SPARStwo::solve`
(§4.5).  Each iteration polls the termination condition, checks for a
connected start/goal pair, checks the consecutive-failure budget, and
otherwise consumes one sample and runs the admission engine — a total
state-update function (its internal policy branches return states,
never errors, per §7).  Exhausting the sample stream is sampling
exhaustion, a soft failure.  Returns the outcome and the number of loop
iterations executed. -/
def solveLoop (engine : SparseGraph → Config → SparseGraph × Bool)
    (query : Query) (maxFailures : Nat) (ptc : Nat → Bool) :
    List Config → SparseGraph → Nat → Nat → SolveOutcome × Nat
  | [], _, iter, _ => (SolveOutcome.exhaustedNoSolution, iter)
  | sample :: rest, g, iter, failures =>
    if ptc iter then (SolveOutcome.exhaustedNoSolution, iter)
    else if haveSolution g query then (SolveOutcome.solutionFound, iter)
    else if maxFailures ≤ failures then (SolveOutcome.exhaustedNoSolution, iter)
    else
      solveLoop engine query maxFailures ptc rest (engine g sample).1 (iter + 1)
        (if (engine g sample).2 then 0 else failures + 1)

/-- Modelled from the spec: `SPARStwo::solve` (declaration only, line
316).  §7(d): an invalid problem definition — no valid start or no
valid goal guard — is reported immediately as invalid input, without
entering the construction loop; otherwise the loop runs. -/
def solve (engine : SparseGraph → Config → SparseGraph × Bool) (g : SparseGraph)
    (query : Query) (maxFailures : Nat) (samples : List Config) (ptc : Nat → Bool) :
    SolveOutcome × Nat :=
  if query.startM.isEmpty || query.goalM.isEmpty then
    (SolveOutcome.invalidInput, 0)
  else
    solveLoop engine query maxFailures ptc samples g 0 0

/-- The construction loop itself never reports invalid input. -/
theorem solveLoop_ne_invalid (engine : SparseGraph → Config → SparseGraph × Bool)
    (query : Query) (maxFailures : Nat) (ptc : Nat → Bool) :
    ∀ (samples : List Config) (g : SparseGraph) (iter failures : Nat),
      (solveLoop engine query maxFailures ptc samples g iter failures).1 ≠
        SolveOutcome.invalidInput := by
  intro samples
  induction samples with
  | nil =>
    intro g iter failures h
    cases h
  | cons sample rest ih =>
    intro g iter failures
    unfold solveLoop
    split_ifs <;> first
      | (intro h; cases h)
      | exact ih (engine g sample).1 (iter + 1) _

/-- C9: `solve` reports exactly one of {solution found, exhausted
without solution, invalid input}; it reports invalid input iff the
query has no start or no goal guard, and in that case immediately, with
zero construction-loop iterations executed.  Internal helper outcomes
are plain values of the total loop, never errors. -/
theorem C9_solve_outcome_taxonomy :
    (∀ (engine : SparseGraph → Config → SparseGraph × Bool) (g : SparseGraph)
        (query : Query) (maxFailures : Nat) (samples : List Config) (ptc : Nat → Bool),
      (solve engine g query maxFailures samples ptc).1 = SolveOutcome.solutionFound ∨
      (solve engine g query maxFailures samples ptc).1 =
        SolveOutcome.exhaustedNoSolution ∨
      (solve engine g query maxFailures samples ptc).1 = SolveOutcome.invalidInput) ∧
    (∀ engine g query maxFailures samples ptc,
      (solve engine g query maxFailures samples ptc).1 = SolveOutcome.invalidInput ↔
        (query.startM.isEmpty || query.goalM.isEmpty) = true) ∧
    (∀ engine g query maxFailures samples ptc,
      (query.startM.isEmpty || query.goalM.isEmpty) = true →
      solve engine g query maxFailures samples ptc = (SolveOutcome.invalidInput, 0)) := by
  refine ⟨?_, ?_, ?_⟩
  · intro engine g query maxFailures samples ptc
    cases h : (solve engine g query maxFailures samples ptc).1 <;> simp
  · intro engine g query maxFailures samples ptc
    unfold solve
    by_cases hE : (query.startM.isEmpty || query.goalM.isEmpty) = true
    · rw [if_pos hE]
      simp [hE]
    · rw [if_neg hE]
      constructor
      · intro h
        exact absurd h (solveLoop_ne_invalid engine query maxFailures ptc samples g 0 0)
      · intro h
        exact absurd h hE
  · intro engine g query maxFailures samples ptc hE
    unfold solve
    rw [if_pos hE]

/-- Witness for C9: a query with no start guard is reported invalid
with zero loop iterations. -/
theorem C9_solve_outcome_taxonomy_witness :
    solve (fun g _ => (g, false)) SparseGraph.empty ⟨[], [0]⟩ 100 [1, 2]
      (fun _ => false) = (SolveOutcome.invalidInput, 0) :=
  C9_solve_outcome_taxonomy.2.2 _ _ _ _ _ _ (by decide)

/-- A concrete parameter record for the counterexample. -/
def P0 : Params := ⟨3, 3, 1 / 2, 5000⟩

/-- Counterexample to C10 as stated: the setter/getter round-trip does
not return a negative input exactly for `setMaxFailures` /
`getMaxFailures` — passing `-5` stores `4294967291` (the unsigned
conversion), which is what the getter returns. -/
theorem C10_counterexample_maxFailures_negative :
    (getMaxFailures (setMaxFailures P0 (toUInt32val (-5))) : Int) ≠ -5 ∧
    getMaxFailures (setMaxFailures P0 (toUInt32val (-5))) = 4294967291 := by
  constructor
  · decide
  · decide

/-- C10 (amended): each setter stores its argument unchanged — the
matching getter returns it exactly, with no validation or clamping and
no effect on any other parameter — for every rational value (zero and
negative included) of the three `double` parameters, and for every
unsigned value (zero included) of `maxFailures`; a negative int passed
to `setMaxFailures` is converted modulo `2^32` at the call boundary, so
only the converted value round-trips. -/
theorem C10_setter_getter_roundtrip :
    (∀ (P : Params) (t : ℚ), getStretchFactor (setStretchFactor P t) = t ∧
      getSparseDelta (setStretchFactor P t) = getSparseDelta P ∧
      getDenseDelta (setStretchFactor P t) = getDenseDelta P ∧
      getMaxFailures (setStretchFactor P t) = getMaxFailures P) ∧
    (∀ (P : Params) (D : ℚ), getSparseDelta (setSparseDelta P D) = D ∧
      getStretchFactor (setSparseDelta P D) = getStretchFactor P ∧
      getDenseDelta (setSparseDelta P D) = getDenseDelta P ∧
      getMaxFailures (setSparseDelta P D) = getMaxFailures P) ∧
    (∀ (P : Params) (d : ℚ), getDenseDelta (setDenseDelta P d) = d ∧
      getStretchFactor (setDenseDelta P d) = getStretchFactor P ∧
      getSparseDelta (setDenseDelta P d) = getSparseDelta P ∧
      getMaxFailures (setDenseDelta P d) = getMaxFailures P) ∧
    (∀ (P : Params) (m : Nat), getMaxFailures (setMaxFailures P m) = m ∧
      getStretchFactor (setMaxFailures P m) = getStretchFactor P ∧
      getSparseDelta (setMaxFailures P m) = getSparseDelta P ∧
      getDenseDelta (setMaxFailures P m) = getDenseDelta P) ∧
    (∀ (P : Params) (v : Int),
      (getMaxFailures (setMaxFailures P (toUInt32val v)) : Int) = v % (2 ^ 32 : Int)) :=
  ⟨fun _ _ => ⟨rfl, rfl, rfl, rfl⟩,
   fun _ _ => ⟨rfl, rfl, rfl, rfl⟩,
   fun _ _ => ⟨rfl, rfl, rfl, rfl⟩,
   fun _ _ => ⟨rfl, rfl, rfl, rfl⟩,
   fun _ v => by
     unfold getMaxFailures setMaxFailures toUInt32val
     simp only []
     exact Int.toNat_of_nonneg (Int.emod_nonneg v (by norm_num))⟩

end SPARStwo
